import Mathlib

/-
Verification of the filter-and-aggregate pipeline of the ZaraBusinessSalesData
dashboards (src/app.py and src/app2.py).

The pandas dataframes are embedded shallowly: a `Table` is a header (list of
column names) together with rows of cells; a cell is missing (NaN), a string,
or a number.  All numbers flowing through this pipeline enter by parsing
decimal text, so they are modelled exactly as scaled integers m / 10^e
(`Decimal`); "modulo floating-point formatting" equalities of the spec become
exact equalities of these decimals.  Column operations (`df[c] = expr`,
`dropna`, boolean-mask filtering, `nlargest`, `to_csv`/`read_csv`) are
modelled row-wise, mirroring the pandas calls they embed.  Where pandas
accepts syntax this model does not (scientific notation or stray whitespace
inside numeric literals, duplicate column labels), the restriction is noted
at the definition.
-/

/-- Decimal number m / 10^e: exact model of the float values in the pipeline
(all of which enter by parsing decimal text). -/
structure Decimal where
  m : Int
  e : Nat
deriving DecidableEq, Repr

def Decimal.toRat (d : Decimal) : ℚ := mkRat d.m (10 ^ d.e)

def Decimal.mul (a b : Decimal) : Decimal := ⟨a.m * b.m, a.e + b.e⟩

/-- Dataframe cell: NaN, a string, or a number. -/
inductive Cell where
  | na
  | str (s : String)
  | num (d : Decimal)
deriving DecidableEq, Repr

def Cell.isNum : Cell → Bool
  | .num _ => true
  | _ => false

def Cell.isNa : Cell → Bool
  | .na => true
  | _ => false

def Cell.rat? : Cell → Option ℚ
  | .num d => some d.toRat
  | _ => none

abbrev Row := List Cell

/-- Dataframe: column names plus rows of cells (row i, column j at
`rows[i][j]`).  Duplicate column labels are not modelled: lookups find the
first occurrence. -/
structure Table where
  header : List String
  rows : List Row
deriving DecidableEq, Repr

/-- Every row has exactly one cell per column (always true of a real
dataframe). -/
def Table.Aligned (F : Table) : Prop := ∀ r ∈ F.rows, r.length = F.header.length

instance (F : Table) : Decidable F.Aligned := by
  unfold Table.Aligned; infer_instance

/-- Index of the first column named n. -/
def idxOf? (n : String) : List String → Option Nat
  | [] => none
  | h :: t => if h = n then some 0 else (idxOf? n t).map (· + 1)

def Table.colIdx (F : Table) (n : String) : Option Nat := idxOf? n F.header

def Table.hasCol (F : Table) (n : String) : Bool := (F.colIdx n).isSome

def Table.cellAt (F : Table) (r : Row) (n : String) : Cell :=
  match F.colIdx n with
  | some i => r.getD i .na
  | none => .na

def Table.nrows (F : Table) : Nat := F.rows.length

/-- Row transform of the column assignment `df[n] = f(row)`: overwrite the
cell of an existing column, or append a new last cell. -/
def Table.trCol (F : Table) (n : String) (f : Row → Cell) (r : Row) : Row :=
  match F.colIdx n with
  | some i => r.set i (f r)
  | none => r ++ [f r]

/-- Column assignment `df[n] = expr(df)` where expr is computed row-wise from
the old frame (pandas evaluates the right-hand side before assigning). -/
def Table.setColWith (F : Table) (n : String) (f : Row → Cell) : Table :=
  ⟨if F.hasCol n then F.header else F.header ++ [n], F.rows.map (F.trCol n f)⟩

/-- Boolean-mask row filtering `df[mask]`. -/
def Table.filterRows (F : Table) (p : Row → Bool) : Table := ⟨F.header, F.rows.filter p⟩

/- ------------- numeric parsing (pd.to_numeric / read_csv inference) ------ -/

def digitVal? (c : Char) : Option Nat := if c.isDigit then some (c.toNat - 48) else none

/-- Accumulating parse of a digit run (most significant digit first). -/
def parseNatAux : Nat → List Char → Option Nat
  | a, [] => some a
  | a, c :: t =>
    match digitVal? c with
    | some d => parseNatAux (a * 10 + d) t
    | none => none

def parseNatChars (l : List Char) : Option Nat := parseNatAux 0 l

/-- Parse an unsigned decimal literal (digits, optionally one point).  Covers
the literals pandas itself prints; scientific notation and embedded
whitespace, which pandas also accepts, are outside the model and read as
non-numeric. -/
def parseDecChars (l : List Char) : Option Decimal :=
  match l.span (· ≠ '.') with
  | (intPart, []) =>
    if intPart = [] then none else (parseNatChars intPart).map fun n => ⟨n, 0⟩
  | (intPart, _dot :: frac) =>
    if intPart = [] ∧ frac = [] then none
    else
      match parseNatChars intPart, parseNatChars frac with
      | some a, some b => some ⟨a * 10 ^ frac.length + b, frac.length⟩
      | _, _ => none

/-- Parse a signed decimal literal. -/
def parseSigned (l : List Char) : Option Decimal :=
  match l with
  | c :: rest => if c = '-' then (parseDecChars rest).map fun d => ⟨-d.m, d.e⟩ else parseDecChars l
  | [] => parseDecChars l

def parseNumStr (s : String) : Option Decimal := parseSigned s.data

/-- Strings the csv reader treats as missing (pandas default NA values,
restricted to the common ones). -/
def naStrings : List String := ["", "nan", "NaN", "NA", "N/A", "NULL", "null", "#N/A", "None"]

/-- Model of `pd.to_numeric(x, errors="coerce")` on one cell: numbers pass
through, parseable strings become numbers, everything else becomes NaN. -/
def toNumericCell : Cell → Cell
  | .na => .na
  | .num d => .num d
  | .str s =>
    if naStrings.contains s then .na
    else
      match parseNumStr s with
      | some d => .num d
      | none => .na

/-- Product of two float cells; NaN propagates. -/
def mulCell : Cell → Cell → Cell
  | .num a, .num b => .num (a.mul b)
  | _, _ => .na

/- --------------------------- decimal printing --------------------------- -/

def digitChar10 (d : Nat) : Char := Char.ofNat (48 + d)

/-- Digits of n, least significant first, with explicit fuel (structural
recursion that the kernel evaluates). -/
def printNatAux : Nat → Nat → List Char
  | 0, _ => []
  | _, 0 => []
  | fuel + 1, n + 1 => digitChar10 ((n + 1) % 10) :: printNatAux fuel ((n + 1) / 10)

def printNatChars (n : Nat) : List Char :=
  if n = 0 then ['0'] else (printNatAux n n).reverse

/-- Digits of n padded with leading zeros to at least e + 1 characters. -/
def padNat (n e : Nat) : List Char :=
  List.replicate (e + 1 - (printNatChars n).length) '0' ++ printNatChars n

/-- Print n / 10^e as an unsigned decimal literal, keeping e fractional
digits (so the parse of the output recovers m and e exactly). -/
def printDecChars (n : Nat) (e : Nat) : List Char :=
  if e = 0 then printNatChars n
  else (padNat n e).take ((padNat n e).length - e) ++
    '.' :: (padNat n e).drop ((padNat n e).length - e)

def Decimal.print (d : Decimal) : List Char :=
  if d.m < 0 then '-' :: printDecChars d.m.natAbs d.e else printDecChars d.m.toNat d.e

/- -------------------- schema normalization (app.py 42-68) --------------- -/

/-- Model of `.str.strip()` on a column name. -/
def stripName (s : String) : String :=
  ⟨((s.data.dropWhile Char.isWhitespace).reverse.dropWhile Char.isWhitespace).reverse⟩

/-- Alias table of app.py lines 43-63, in source order. -/
def colMap : List (String × String) :=
  [("product_name", "name"), ("productname", "name"), ("item", "name"),
   ("price", "price"),
   ("sales_volume", "Sales Volume"), ("salesvolume", "Sales Volume"),
   ("units_sold", "Sales Volume"), ("unitssold", "Sales Volume"),
   ("quantity", "Sales Volume"),
   ("revenue", "Revenue"),
   ("promotion", "Promotion"),
   ("product_position", "Product Position"), ("position", "Product Position"),
   ("seasonal", "Seasonal"),
   ("section", "section"), ("gender", "section"),
   ("season", "season"),
   ("material", "material"), ("fabric", "material")]

/-- ASCII lower-casing of one character (the column names handled by the
alias table are ASCII). -/
def lowerChar (c : Char) : Char :=
  if 65 ≤ c.toNat ∧ c.toNat ≤ 90 then Char.ofNat (c.toNat + 32) else c

/-- Model of `str.lower()` on a column name. -/
def lowerStr (s : String) : String := ⟨s.data.map lowerChar⟩

def renameStep (cur : String) (p : String × String) : String :=
  if lowerStr cur = p.1 then p.2 else cur

/-- Sequential application of the rename loop (app.py lines 65-68) to one
column name: each (old, new) pair in order renames the column if its
lowercase form matches. -/
def renameName (s : String) : String := colMap.foldl renameStep s

def normName (s : String) : String := renameName (stripName s)

/-- Lines 42 and 65-68: strip the column names, then run the alias renames.
The nested source loop renames each matching column of the frame for each
alias pair in order, which acts on every column name independently. -/
def normHeader (F : Table) : Table := ⟨F.header.map normName, F.rows⟩

/- ------------------------- cleaning (app.py 70-97) ----------------------- -/

def possibleSalesCols : List String := ["units_sold", "quantity", "sales_volume", "sales", "units"]

/-- Lines 72-77: if "Sales Volume" is absent, the loop looks for the first
entry of `possibleSalesCols` among the lowercased column names; when one is
found, line 76 evaluates `df.columns[df.columns.str.lower() == col].iloc[0]`,
and a pandas Index has no `.iloc` attribute, so the branch always raises
AttributeError.  When the column exists, or no name matches, the frame
passes through unchanged (line 79 then handles the coercion). -/
def salesFallback (F : Table) : Except String Table :=
  if F.hasCol "Sales Volume" then .ok F
  else
    match possibleSalesCols.find? (fun c => F.header.any fun h => lowerStr h = c) with
    | some _ => .error "AttributeError: iloc"
    | none => .ok F

def catCols : List String :=
  ["Promotion", "Product Position", "Seasonal", "section", "season", "material", "name"]

/-- One cell of `fillna("Unknown").astype(str)`. -/
def astypeFillCell : Cell → Cell
  | .na => .str "Unknown"
  | .str s => .str s
  | .num d => .str ⟨d.print⟩

/-- Lines 89-93: fill one categorical column, or materialize it as
"Unknown" when absent. -/
def fillCat (F : Table) (c : String) : Table :=
  if F.hasCol c then F.setColWith c fun r => astypeFillCell (F.cellAt r c)
  else F.setColWith c fun _ => .str "Unknown"

def setIdxCells (i : Nat) : List Row → List Cell → List Row
  | [], _ => []
  | r :: rs, [] => r.set i Cell.na :: setIdxCells i rs []
  | r :: rs, v :: vs => r.set i v :: setIdxCells i rs vs

def appendIdxCells : List Row → List Cell → List Row
  | [], _ => []
  | r :: rs, [] => (r ++ [Cell.na]) :: appendIdxCells rs []
  | r :: rs, v :: vs => (r ++ [v]) :: appendIdxCells rs vs

/-- Column assignment from an explicit list of values. -/
def Table.setColVals (F : Table) (n : String) (vals : List Cell) : Table :=
  match F.colIdx n with
  | some i => ⟨F.header, setIdxCells i F.rows vals⟩
  | none => ⟨F.header ++ [n], appendIdxCells F.rows vals⟩

/-- Values of `'Product ' + df.index.astype(str)` (app.py line 97). -/
def nameSynthCol (F : Table) : List Cell :=
  (List.range F.nrows).map fun i => Cell.str ("Product " ++ toString i)

/-- Line 71: `df['price'] = pd.to_numeric(df['price'], errors='coerce')`.
The bare df['price'] access raises KeyError when the column is missing;
cleanApp checks this before applying the stage. -/
def cleanPrice (F : Table) : Table :=
  F.setColWith "price" fun r => toNumericCell (F.cellAt r "price")

/-- Line 79: `df['Sales Volume'] = pd.to_numeric(df.get('Sales Volume', 0),
errors='coerce')`; when the column is missing, `df.get` yields the scalar 0,
which the assignment broadcasts to every row. -/
def cleanVol (F : Table) : Table :=
  if F.hasCol "Sales Volume" then
    F.setColWith "Sales Volume" fun r => toNumericCell (F.cellAt r "Sales Volume")
  else
    F.setColWith "Sales Volume" fun _ => Cell.num ⟨0, 0⟩

/-- Line 82: `df.dropna(subset=['price', 'Sales Volume'], inplace=True)`. -/
def dropNaPriceVol (F : Table) : Table :=
  F.filterRows fun r => !(F.cellAt r "price").isNa && !(F.cellAt r "Sales Volume").isNa

/-- Line 85: `df['Revenue'] = df['price'] * df['Sales Volume']`. -/
def addRevenue (F : Table) : Table :=
  F.setColWith "Revenue" fun r => mulCell (F.cellAt r "price") (F.cellAt r "Sales Volume")

/-- Lines 96-97: `if 'name' not in df.columns: df['name'] =
df.get('product_name', 'Product ' + df.index.astype(str))`.  (The guard can
never fire after the categorical fill, which includes name.) -/
def nameDefault (F : Table) : Table :=
  if F.hasCol "name" then F
  else if F.hasCol "product_name" then F.setColWith "name" fun r => F.cellAt r "product_name"
  else F.setColVals "name" (nameSynthCol F)

/-- Data cleaning of app.py lines 42-97: header normalization, numeric
coercion of price (line 71, KeyError when the column is missing), the
sales-volume fallback (72-77, whose found-a-column branch always dies with
AttributeError at line 76), the scalar default and coercion of line 79,
dropping rows with missing price or volume (82), Revenue (85), categorical
fill (88-93) and the name default (96-97). -/
def cleanApp (F0 : Table) : Except String Table :=
  match (normHeader F0).colIdx "price" with
  | none => .error "KeyError: price"
  | some _ =>
    match salesFallback (cleanPrice (normHeader F0)) with
    | .error e => .error e
    | .ok F1 =>
      .ok (nameDefault (catCols.foldl fillCat (addRevenue (dropNaPriceVol (cleanVol F1)))))

/-- app2.py line 38: `df['Sales Volume'] = pd.to_numeric(df['Sales
Volume'], errors='coerce')` (KeyError when the column is missing, checked in
cleanApp2). -/
def cleanVol2 (F : Table) : Table :=
  F.setColWith "Sales Volume" fun r => toNumericCell (F.cellAt r "Sales Volume")

/-- Data cleaning of app2.py lines 38-42: numeric coercion of Sales Volume
and price (KeyError when a column is missing) and Revenue - the price and
Revenue assignments are the same expressions as app.py's lines 71 and 85.
No rows are dropped. -/
def cleanApp2 (F : Table) : Except String Table :=
  match F.colIdx "Sales Volume" with
  | none => .error "KeyError: Sales Volume"
  | some _ =>
    match (cleanVol2 F).colIdx "price" with
    | none => .error "KeyError: price"
    | some _ => .ok (addRevenue (cleanPrice (cleanVol2 F)))

/- ------------------------------ filtering ------------------------------- -/

/-- User filter selections of app.py (multiselect values per categorical
dimension plus the price slider interval). -/
structure FilterSpec where
  promotion : List String
  position : List String
  seasonal : List String
  sectionSel : List String
  season : List String
  material : List String
  priceLo : ℚ
  priceHi : ℚ

/-- Model of `Series.isin(sel)` on one cell, for selection lists of strings
(the multiselect options, drawn from the string-typed cleaned columns). -/
def cellInSel (c : Cell) (sel : List String) : Bool :=
  match c with
  | .str s => sel.contains s
  | _ => false

/-- Model of `Series.between(lo, hi)` on one cell: inclusive on both ends,
false on NaN. -/
def cellBetween (c : Cell) (lo hi : ℚ) : Bool :=
  match c with
  | .num d => decide (lo ≤ d.toRat ∧ d.toRat ≤ hi)
  | _ => false

/-- Conjunction of masks of app.py lines 131-139. -/
def rowPass (F : Table) (s : FilterSpec) (r : Row) : Bool :=
  cellInSel (F.cellAt r "Promotion") s.promotion &&
  cellInSel (F.cellAt r "Product Position") s.position &&
  cellInSel (F.cellAt r "Seasonal") s.seasonal &&
  cellInSel (F.cellAt r "section") s.sectionSel &&
  cellInSel (F.cellAt r "season") s.season &&
  cellInSel (F.cellAt r "material") s.material &&
  cellBetween (F.cellAt r "price") s.priceLo s.priceHi

def applyFilters (F : Table) (s : FilterSpec) : Table := F.filterRows (rowPass F s)

/-- User filter selections of app2.py (lines 47-77). -/
structure FilterSpec2 where
  seasonal : List String
  season : List String
  material : List String
  origin : List String
  priceLo : Int
  priceHi : Int

/-- Conjunction of masks of app2.py lines 80-86. -/
def rowPass2 (F : Table) (s : FilterSpec2) (r : Row) : Bool :=
  cellInSel (F.cellAt r "Seasonal") s.seasonal &&
  cellInSel (F.cellAt r "season") s.season &&
  cellInSel (F.cellAt r "material") s.material &&
  cellInSel (F.cellAt r "origin") s.origin &&
  cellBetween (F.cellAt r "price") (s.priceLo : ℚ) (s.priceHi : ℚ)

def applyFilters2 (F : Table) (s : FilterSpec2) : Table := F.filterRows (rowPass2 F s)

/- ------------------------- summary metrics ------------------------------ -/

def Table.colCells (F : Table) (n : String) : List Cell := F.rows.map fun r => F.cellAt r n

def Table.colRats (F : Table) (n : String) : List ℚ := (F.colCells n).filterMap Cell.rat?

def sumQ (l : List ℚ) : ℚ := l.foldl (· + ·) 0

structure Summary where
  totalProducts : Nat
  totalUnits : ℚ
  totalRevenue : ℚ
  avgPrice : Option ℚ
deriving DecidableEq, Repr

/-- Key metrics of app.py lines 143-147: `len`, `sum` (skipna, 0 on empty),
and `mean` (NaN on empty, modelled as `none`). -/
def summaryMetrics (F : Table) : Summary :=
  { totalProducts := F.rows.length
    totalUnits := sumQ (F.colRats "Sales Volume")
    totalRevenue := sumQ (F.colRats "Revenue")
    avgPrice :=
      let l := F.colRats "price"
      if l.isEmpty then none else some (sumQ l / l.length) }

/-- Rounding to cents used by the `%.2f` format (Python rounds half to even;
this model rounds half up, which differs only at exact half-cents and is not
relied on by any claim). -/
def roundCents (q : ℚ) : Decimal := ⟨⌊q * 100 + 1 / 2⌋, 2⟩

/-- Model of the f-string `f"${mean:.2f}"` of app.py line 147; Python
formats the NaN mean of an empty column as "$nan". -/
def avgPriceText : Option ℚ → String
  | none => "$nan"
  | some q => "$" ++ ⟨(roundCents q).print⟩

/- ------------------------- price bounds (C5) ---------------------------- -/

def minQ? (l : List ℚ) : Option ℚ :=
  l.foldl (fun a q => match a with | none => some q | some v => some (min v q)) none

def maxQ? (l : List ℚ) : Option ℚ :=
  l.foldl (fun a q => match a with | none => some q | some v => some (max v q)) none

/-- app.py line 121: `float(df['price'].min()), float(df['price'].max())`.
The min and max skip NaN and are themselves NaN (`none`) when no numeric
price exists; no default interval is substituted. -/
def priceBoundsApp (F : Table) : Except String (Option ℚ × Option ℚ) :=
  match F.colIdx "price" with
  | none => .error "KeyError: price"
  | some _ => .ok (minQ? (F.colRats "price"), maxQ? (F.colRats "price"))

/-- Python truthiness of a float: NaN is truthy, 0.0 is falsy. -/
def pyTruthyQ : Option ℚ → Bool
  | none => true
  | some q => !(q = 0 : Bool)

/-- Python `int()` of a float: truncation toward zero; raises on NaN. -/
def pyIntQ : Option ℚ → Except String Int
  | none => .error "ValueError: cannot convert float NaN to integer"
  | some q => .ok (if 0 ≤ q then ⌊q⌋ else -⌊-q⌋)

/-- app2.py lines 72-77: the slider max_value `int(df['price'].max()) if
df['price'].max() else 200` and initial value `(0, int(df['price'].max()))
if df['price'].max() else (0, 200)`. -/
def priceBoundsApp2 (F : Table) : Except String (Int × (Int × Int)) :=
  match F.colIdx "price" with
  | none => .error "KeyError: price"
  | some _ => do
    let mx := maxQ? (F.colRats "price")
    let maxValue ← if pyTruthyQ mx then pyIntQ mx else pure 200
    let value ←
      if pyTruthyQ mx then do
        let v ← pyIntQ mx
        pure ((0 : Int), v)
      else pure ((0 : Int), (200 : Int))
    pure (maxValue, value)

/- ------------------------------ nlargest -------------------------------- -/

/-- Stable descending insertion: a goes in front of the first element whose
key is not larger (so earlier elements win ties). -/
def insertDesc (key : α → ℚ) (a : α) : List α → List α
  | [] => [a]
  | b :: l => if key b ≤ key a then a :: b :: l else b :: insertDesc key a l

/-- Stable descending sort by key. -/
def sortDesc (key : α → ℚ) (l : List α) : List α := l.foldr (insertDesc key) []

def Table.keyAt (F : Table) (n : String) (r : Row) : ℚ := ((F.cellAt r n).rat?).getD 0

/-- Model of `df.nlargest(n, c)` with the default keep='first': rows whose
cell at c is NaN are excluded, the rest are sorted descending by that cell
with original order on ties, and the first n are taken. -/
def Table.nlargest (F : Table) (n : Nat) (c : String) : Table :=
  ⟨F.header, (sortDesc (F.keyAt c) (F.rows.filter fun r => (F.cellAt r c).isNum)).take n⟩

/- ------------------------------ groupby --------------------------------- -/

def upsert (l : List (Cell × ℚ)) (k : Cell) (q : ℚ) : List (Cell × ℚ) :=
  match l with
  | [] => [(k, q)]
  | (k', q') :: t => if k' = k then (k', q' + q) :: t else (k', q') :: upsert t k q

/-- Model of `df.groupby(c)[v].sum()`: KeyError when the grouping column is
missing; otherwise group sums in first-appearance order (NaN keys skipped,
NaN values counted as 0). -/
def Table.groupSum (F : Table) (c v : String) : Except String (List (Cell × ℚ)) :=
  match F.colIdx c with
  | none => .error ("KeyError: " ++ c)
  | some _ =>
    .ok (F.rows.foldl
      (fun acc r =>
        match F.cellAt r c with
        | .na => acc
        | k => upsert acc k (((F.cellAt r v).rat?).getD 0))
      [])

/-- app.py unconditional tail of the pipeline relevant to schema gaps: the
cleaning followed by the origin-country chart `df.groupby('origin')['Sales
Volume'].sum()` of line 196; the first raised error aborts the script. -/
def appPipeline (F : Table) : Except String Table :=
  match cleanApp F with
  | .error e => .error e
  | .ok F' =>
    match F'.groupSum "origin" "Sales Volume" with
    | .error e => .error e
    | .ok _ => .ok F'

/- --------------------------- export / reload ---------------------------- -/

/-- Delimited text table: a header row and one row of textual fields per
record.  Field quoting/unquoting is pandas machinery and is abstracted: each
field is carried as the string it denotes. -/
structure Csv where
  header : List String
  rows : List (List String)
deriving DecidableEq, Repr

/-- Model of csv cell ingestion by `pd.read_csv`: NA strings become NaN,
numeric literals become numbers, everything else stays a string.  (pandas
infers types per column rather than per cell; for the values this pipeline
round-trips the result is the same, see the round-trip theorem.) -/
def readCell (s : String) : Cell :=
  if naStrings.contains s then .na
  else
    match parseNumStr s with
    | some d => .num d
    | none => .str s

def loadCsv (T : Csv) : Table := ⟨T.header, T.rows.map fun r => r.map readCell⟩

/-- Model of one cell of `to_csv`: NaN prints as the empty field, numbers as
decimal literals. -/
def printCell : Cell → String
  | .na => ""
  | .str s => s
  | .num d => ⟨d.print⟩

/-- Model of `df.to_csv(index=False)` (app.py lines 209-214, app2.py line
161): the header row then one field per column per record. -/
def Table.exportCsv (F : Table) : Csv :=
  ⟨F.header, F.rows.map fun r => (List.range F.header.length).map fun i => printCell (r.getD i .na)⟩

/- ----------------------- concrete example tables ------------------------ -/

/-- Raw table whose second record has an unparseable price. -/
def exTwoRows : Table :=
  ⟨["name", "price", "Sales Volume", "origin"],
   [[Cell.str "A", Cell.str "10.5", Cell.str "3", Cell.str "Spain"],
    [Cell.str "B", Cell.str "abc", Cell.str "2", Cell.str "Italy"]]⟩

/-- Raw table with no column mapping to name (and no origin column). -/
def exNoName : Table := ⟨["price", "Sales Volume"], [[Cell.str "10", Cell.str "2"]]⟩

/-- Raw table whose only price fails numeric parsing. -/
def exBadPrice : Table :=
  ⟨["name", "price", "Sales Volume"], [[Cell.str "A", Cell.str "abc", Cell.str "2"]]⟩

/-- Cleaned-shape table with zero rows (an empty FilteredView). -/
def exEmptyView : Table := ⟨["name", "price", "Sales Volume", "Revenue"], []⟩

/-- Raw app2-shaped table whose first record has an unparseable sales volume. -/
def exC7Raw : Table :=
  ⟨["name", "price", "Sales Volume", "Seasonal", "season", "material", "origin"],
   [[Cell.str "A", Cell.str "10", Cell.str "oops", Cell.str "Yes", Cell.str "Winter",
     Cell.str "Wool", Cell.str "Spain"],
    [Cell.str "B", Cell.str "5", Cell.str "3", Cell.str "Yes", Cell.str "Winter",
     Cell.str "Wool", Cell.str "Spain"]]⟩

def exC7Spec : FilterSpec2 := ⟨["Yes"], ["Winter"], ["Wool"], ["Spain"], 0, 100⟩

/-- Boolean test that an Except result is the given error message. -/
def isErrorWith (e : Except String Table) (s : String) : Bool :=
  match e with
  | .error t => t = s
  | .ok _ => false

/-- Names of the columns the cleaning of app.py writes. -/
def specialCols : List String := "price" :: "Sales Volume" :: "Revenue" :: catCols

/-- The header of F is the header of B extended by fresh columns drawn from
the allowed list. -/
def HeaderExt (allowed : List String) (B F : Table) : Prop :=
  ∃ extra : List String, F.header = B.header ++ extra ∧ extra.Nodup ∧
    ∀ c ∈ extra, c ∈ allowed ∧ c ∉ B.header

/-- What app.py's cleaning guarantees of its output F' relative to the
header-normalized input B = normHeader F0: the header shape, presence of
the canonical columns, and per-record provenance of every canonical cell. -/
structure CleanProps (B F' : Table) : Prop where
  aligned : F'.Aligned
  headerExt : HeaderExt specialCols B F'
  hasPrice : F'.hasCol "price" = true
  hasVol : F'.hasCol "Sales Volume" = true
  hasRev : F'.hasCol "Revenue" = true
  hasCats : ∀ c ∈ catCols, F'.hasCol c = true
  rowSpec : ∀ r' ∈ F'.rows, ∃ r ∈ B.rows,
    (F'.cellAt r' "price" = toNumericCell (B.cellAt r "price")) ∧
    (F'.cellAt r' "price").isNum = true ∧
    (F'.cellAt r' "Sales Volume").isNum = true ∧
    (F'.cellAt r' "Revenue" =
      mulCell (F'.cellAt r' "price") (F'.cellAt r' "Sales Volume")) ∧
    (∀ c ∈ catCols, F'.cellAt r' c =
      if B.hasCol c then astypeFillCell (B.cellAt r c) else .str "Unknown") ∧
    (∀ m, m ∉ specialCols → F'.cellAt r' m = B.cellAt r m)

/-- Output of cleanApp on exTwoRows, written out (checked by rfl in the
witnesses). -/
def exTwoRowsClean : Table :=
  ⟨["name", "price", "Sales Volume", "origin", "Revenue", "Promotion", "Product Position",
    "Seasonal", "section", "season", "material"],
   [[Cell.str "A", Cell.num ⟨105, 1⟩, Cell.num ⟨3, 0⟩, Cell.str "Spain", Cell.num ⟨315, 1⟩,
     Cell.str "Unknown", Cell.str "Unknown", Cell.str "Unknown", Cell.str "Unknown",
     Cell.str "Unknown", Cell.str "Unknown"]]⟩

/-- Output of cleanApp2 on exTwoRows, written out. -/
def exTwoRowsClean2 : Table :=
  ⟨["name", "price", "Sales Volume", "origin", "Revenue"],
   [[Cell.str "A", Cell.num ⟨105, 1⟩, Cell.num ⟨3, 0⟩, Cell.str "Spain", Cell.num ⟨315, 1⟩],
    [Cell.str "B", Cell.na, Cell.num ⟨2, 0⟩, Cell.str "Italy", Cell.na]]⟩

/-- Small cleaned view exercising the filters. -/
def exC1View : Table :=
  ⟨["name", "price", "Sales Volume", "Revenue", "Promotion", "Product Position",
    "Seasonal", "section", "season", "material"],
   [[Cell.str "A", Cell.num ⟨10, 0⟩, Cell.num ⟨5, 0⟩, Cell.num ⟨50, 0⟩, Cell.str "Yes",
     Cell.str "Aisle", Cell.str "Yes", Cell.str "MEN", Cell.str "Summer", Cell.str "Cotton"]]⟩

/-- Filter selections with an empty Promotion selection. -/
def exC1SpecEmpty : FilterSpec :=
  ⟨[], ["Aisle"], ["Yes"], ["MEN"], ["Summer"], ["Cotton"], 0, 100⟩

/-- The single record of exC1View. -/
def exC1Row : Row :=
  [Cell.str "A", Cell.num ⟨10, 0⟩, Cell.num ⟨5, 0⟩, Cell.num ⟨50, 0⟩, Cell.str "Yes",
   Cell.str "Aisle", Cell.str "Yes", Cell.str "MEN", Cell.str "Summer", Cell.str "Cotton"]

/-- Two-record all-numeric view for the nlargest witness. -/
def exC7NumView : Table :=
  ⟨["name", "Sales Volume"], [[Cell.str "A", Cell.num ⟨3, 0⟩], [Cell.str "B", Cell.num ⟨7, 0⟩]]⟩

/-- Output of cleanApp on exNoName, written out. -/
def exNoNameClean : Table :=
  ⟨["price", "Sales Volume", "Revenue", "Promotion", "Product Position", "Seasonal",
    "section", "season", "material", "name"],
   [[Cell.num ⟨10, 0⟩, Cell.num ⟨2, 0⟩, Cell.num ⟨20, 0⟩, Cell.str "Unknown",
     Cell.str "Unknown", Cell.str "Unknown", Cell.str "Unknown", Cell.str "Unknown",
     Cell.str "Unknown", Cell.str "Unknown"]]⟩

/-- Spec-side predicate of claim C1 on one record, written from the claim's
words: the record's value in each categorical dimension is a member of the
selected set, and the price lies in the inclusive interval. -/
def FilterSpecSat (F : Table) (s : FilterSpec) (r : Row) : Prop :=
  (∃ v, F.cellAt r "Promotion" = .str v ∧ v ∈ s.promotion) ∧
  (∃ v, F.cellAt r "Product Position" = .str v ∧ v ∈ s.position) ∧
  (∃ v, F.cellAt r "Seasonal" = .str v ∧ v ∈ s.seasonal) ∧
  (∃ v, F.cellAt r "section" = .str v ∧ v ∈ s.sectionSel) ∧
  (∃ v, F.cellAt r "season" = .str v ∧ v ∈ s.season) ∧
  (∃ v, F.cellAt r "material" = .str v ∧ v ∈ s.material) ∧
  (∃ d : Decimal, F.cellAt r "price" = .num d ∧
    s.priceLo ≤ d.toRat ∧ d.toRat ≤ s.priceHi)

/-- A string that survives the csv round trip through the categorical fill:
re-reading it and re-applying fillna + astype(str) reproduces it. -/
def CatStable (s : String) : Prop := astypeFillCell (readCell s) = .str s

/-- Invariant of a cleaned view that makes the export / reload / re-clean
round trip the identity: normalized header without duplicates, numeric
price and Sales Volume, Revenue the product of the two, categorical values
stable under refill, and every other cell stable under reread. -/
structure RoundReady (G : Table) : Prop where
  aligned : G.Aligned
  nodup : G.header.Nodup
  headerFixed : ∀ h ∈ G.header, normName h = h
  hasPrice : G.hasCol "price" = true
  hasVol : G.hasCol "Sales Volume" = true
  hasRev : G.hasCol "Revenue" = true
  hasCats : ∀ c ∈ catCols, G.hasCol c = true
  priceNum : ∀ r ∈ G.rows, (G.cellAt r "price").isNum = true
  volNum : ∀ r ∈ G.rows, (G.cellAt r "Sales Volume").isNum = true
  revEq : ∀ r ∈ G.rows, G.cellAt r "Revenue" =
    mulCell (G.cellAt r "price") (G.cellAt r "Sales Volume")
  catReady : ∀ c ∈ catCols, ∀ r ∈ G.rows, ∃ s, G.cellAt r c = .str s ∧ CatStable s
  passReady : ∀ r ∈ G.rows, ∀ i, (hi : i < G.header.length) →
    G.header.get ⟨i, hi⟩ ∉ specialCols →
    readCell (printCell (r.getD i .na)) = r.getD i .na

/-- One record as re-read from its exported text: the csv round trip of one
row against a header of the given length (one printed field per column,
each re-ingested by readCell). -/
def loadRow (len : Nat) (r : Row) : Row :=
  (List.range len).map fun i => readCell (printCell (r.getD i Cell.na))

/-- The parsed image of a table's csv export:
loadCsv (Table.exportCsv G) written as a row-wise map. -/
def reloadTable (G : Table) : Table := ⟨G.header, G.rows.map (loadRow G.header.length)⟩

/-- Raw csv text for the C8 round-trip witness. -/
def exC8Csv : Csv := ⟨["name", "price", "Sales Volume"], [["A", "10.5", "3"]]⟩

/-- Output of cleanApp on the parsed exC8Csv, written out. -/
def exC8Clean : Table :=
  ⟨["name", "price", "Sales Volume", "Revenue", "Promotion", "Product Position",
    "Seasonal", "section", "season", "material"],
   [[Cell.str "A", Cell.num ⟨105, 1⟩, Cell.num ⟨3, 0⟩, Cell.num ⟨315, 1⟩,
     Cell.str "Unknown", Cell.str "Unknown", Cell.str "Unknown", Cell.str "Unknown",
     Cell.str "Unknown", Cell.str "Unknown"]]⟩

/-- Filter selections for the C8 witness. -/
def exC8Spec : FilterSpec :=
  ⟨["Unknown"], ["Unknown"], ["Unknown"], ["Unknown"], ["Unknown"], ["Unknown"], 0, 100⟩

/- ============================== theorems ================================ -/

theorem idxOf?_spec {n : String} {l : List String} {i : Nat} (h : idxOf? n l = some i) :
    i < l.length ∧ l[i]? = some n := by
  induction l generalizing i with
  | nil => simp [idxOf?] at h
  | cons a t ih =>
    rw [idxOf?] at h
    split at h
    · rename_i ha
      cases h
      simpa using ha
    · rcases Option.map_eq_some'.mp h with ⟨j, hj, rfl⟩
      rcases ih hj with ⟨h1, h2⟩
      exact ⟨by simpa using Nat.succ_lt_succ h1, by simpa using h2⟩

theorem idxOf?_lt {n : String} {l : List String} {i : Nat} (h : idxOf? n l = some i) :
    i < l.length := (idxOf?_spec h).1

theorem idxOf?_eq_none {n : String} {l : List String} : idxOf? n l = none ↔ n ∉ l := by
  induction l with
  | nil => simp [idxOf?]
  | cons a t ih =>
    rw [idxOf?]
    by_cases ha : a = n
    · subst ha
      simp
    · simp [ha, Option.map_eq_none', ih, List.mem_cons, Ne.symm ha]

theorem idxOf?_append_of_some {n : String} {l l2 : List String} {i : Nat}
    (h : idxOf? n l = some i) : idxOf? n (l ++ l2) = some i := by
  induction l generalizing i with
  | nil => simp [idxOf?] at h
  | cons a t ih =>
    rw [idxOf?] at h
    rw [List.cons_append, idxOf?]
    split at h <;> rename_i ha
    · rw [if_pos ha]
      exact h
    · rcases Option.map_eq_some'.mp h with ⟨j, hj, rfl⟩
      rw [if_neg ha, ih hj]
      rfl

theorem idxOf?_append_of_none {n : String} {l l2 : List String}
    (h : idxOf? n l = none) : idxOf? n (l ++ l2) = (idxOf? n l2).map (· + l.length) := by
  induction l with
  | nil => simp
  | cons a t ih =>
    rw [idxOf?] at h
    split at h <;> rename_i ha
    · cases h
    · have ht : idxOf? n t = none := Option.map_eq_none'.mp h
      rw [List.cons_append, idxOf?, if_neg ha, ih ht]
      cases hj : idxOf? n l2 with
      | none => simp [hj]
      | some j => simp [hj, Nat.add_assoc]

theorem hasCol_iff {F : Table} {n : String} : F.hasCol n = true ↔ n ∈ F.header := by
  simp only [Table.hasCol, Table.colIdx, Option.isSome_iff_ne_none, ne_eq, idxOf?_eq_none,
    not_not]

theorem hasCol_eq_false_iff {F : Table} {n : String} : F.hasCol n = false ↔ n ∉ F.header := by
  rw [← Bool.not_eq_true, not_iff_not, hasCol_iff]

theorem getD_set_self {α : Type} : ∀ (l : List α) (i : Nat), i < l.length →
    ∀ (v d : α), (l.set i v).getD i d = v := by
  intro l
  induction l with
  | nil => intro i hi; simp at hi
  | cons a t ih =>
    intro i hi v d
    cases i with
    | zero => rfl
    | succ j => simpa [List.getD] using ih j (by simpa using hi) v d

theorem getD_set_ne {α : Type} : ∀ (l : List α) (i j : Nat), i ≠ j →
    ∀ (v d : α), (l.set i v).getD j d = l.getD j d := by
  intro l
  induction l with
  | nil => intro i j _ v d; simp
  | cons a t ih =>
    intro i j hij v d
    cases i with
    | zero =>
      cases j with
      | zero => exact absurd rfl hij
      | succ k => rfl
    | succ i' =>
      cases j with
      | zero => rfl
      | succ k => simpa [List.getD] using ih i' k (by omega) v d

theorem getD_append_left {α : Type} : ∀ (l l2 : List α) (j : Nat), j < l.length →
    ∀ (d : α), (l ++ l2).getD j d = l.getD j d := by
  intro l
  induction l with
  | nil => intro l2 j hj; simp at hj
  | cons a t ih =>
    intro l2 j hj d
    cases j with
    | zero => rfl
    | succ k => simpa [List.getD] using ih l2 k (by simp at hj; omega) d

theorem getD_append_self {α : Type} : ∀ (l : List α) (v d : α),
    (l ++ [v]).getD l.length d = v := by
  intro l
  induction l with
  | nil => intro v d; rfl
  | cons a t ih =>
    intro v d
    show (t ++ [v]).getD t.length d = v
    exact ih v d

theorem rows_setColWith (F : Table) (n : String) (f : Row → Cell) :
    (F.setColWith n f).rows = F.rows.map (F.trCol n f) := rfl

theorem header_setColWith (F : Table) (n : String) (f : Row → Cell) :
    (F.setColWith n f).header = if F.hasCol n then F.header else F.header ++ [n] := rfl

theorem header_setColWith_of_hasCol {F : Table} {n : String} (h : F.hasCol n = true)
    (f : Row → Cell) : (F.setColWith n f).header = F.header := by
  rw [header_setColWith, if_pos h]

theorem length_trCol {F : Table} {n : String} {f : Row → Cell} {r : Row}
    (hr : r.length = F.header.length) :
    (F.trCol n f r).length = (F.setColWith n f).header.length := by
  unfold Table.trCol
  rw [header_setColWith]
  cases h : F.colIdx n with
  | some i =>
    have hasT : F.hasCol n = true := by simp [Table.hasCol, h]
    simp [hasT, hr]
  | none =>
    have hasF : F.hasCol n = false := by simp [Table.hasCol, h]
    simp [hasF, hr]

theorem aligned_setColWith {F : Table} (hA : F.Aligned) (n : String) (f : Row → Cell) :
    (F.setColWith n f).Aligned := by
  intro r' hr'
  rw [rows_setColWith] at hr'
  rcases List.mem_map.mp hr' with ⟨r, hr, rfl⟩
  exact length_trCol (hA r hr)

theorem aligned_filterRows {F : Table} (hA : F.Aligned) (p : Row → Bool) :
    (F.filterRows p).Aligned := by
  intro r hr
  exact hA r (List.mem_of_mem_filter hr)

theorem cellAt_trCol_same {F : Table} {n : String} {f : Row → Cell} {r : Row}
    (hr : r.length = F.header.length) :
    (F.setColWith n f).cellAt (F.trCol n f r) n = f r := by
  unfold Table.cellAt Table.trCol Table.setColWith Table.colIdx
  cases h : idxOf? n F.header with
  | some i =>
    have hasT : F.hasCol n = true := by simp [Table.hasCol, Table.colIdx, h]
    have hi : i < r.length := hr ▸ idxOf?_lt h
    simp only [hasT, if_true]
    rw [h]
    exact getD_set_self r i hi (f r) .na
  | none =>
    have hasF : F.hasCol n = false := by simp [Table.hasCol, Table.colIdx, h]
    simp only [hasF, Bool.false_eq_true, if_false]
    rw [idxOf?_append_of_none h]
    have h1 : idxOf? n [n] = some 0 := by simp [idxOf?]
    rw [h1]
    simp only [Option.map_some', Nat.zero_add]
    rw [← hr]
    exact getD_append_self r (f r) .na

theorem cellAt_trCol_ne {F : Table} {n m : String} {f : Row → Cell} {r : Row}
    (hmn : m ≠ n) (hr : r.length = F.header.length) :
    (F.setColWith n f).cellAt (F.trCol n f r) m = F.cellAt r m := by
  unfold Table.cellAt Table.trCol Table.setColWith Table.colIdx
  cases hn : idxOf? n F.header with
  | some i =>
    have hasT : F.hasCol n = true := by simp [Table.hasCol, Table.colIdx, hn]
    simp only [hasT, if_true]
    cases hm : idxOf? m F.header with
    | none => rfl
    | some j =>
      have hij : i ≠ j := by
        intro hij
        subst hij
        have h1 := (idxOf?_spec hn).2
        have h2 := (idxOf?_spec hm).2
        rw [h1] at h2
        exact hmn (Option.some.inj h2).symm
      exact getD_set_ne r i j hij (f r) .na
  | none =>
    have hasF : F.hasCol n = false := by simp [Table.hasCol, Table.colIdx, hn]
    simp only [hasF, Bool.false_eq_true, if_false]
    cases hm : idxOf? m F.header with
    | some j =>
      rw [idxOf?_append_of_some hm]
      exact getD_append_left r [f r] j (hr ▸ idxOf?_lt hm) .na
    | none =>
      rw [idxOf?_append_of_none hm]
      have h1 : idxOf? m [n] = none := by simp [idxOf?, Ne.symm hmn]
      rw [h1]
      rfl

theorem hasCol_setColWith_iff {F : Table} {n m : String} {f : Row → Cell} :
    (F.setColWith n f).hasCol m = true ↔ (F.hasCol m = true ∨ m = n) := by
  rw [hasCol_iff, header_setColWith]
  by_cases h : F.hasCol n
  · rw [if_pos h, ← hasCol_iff]
    constructor
    · exact Or.inl
    · rintro (hm | rfl)
      · exact hm
      · exact h
  · rw [if_neg h]
    simp [List.mem_append, ← hasCol_iff]

/- ------------------- closed evaluations of the pipeline ------------------ -/

/-- Claim C3, counterexample: app2.py's normalization (lines 38-42) keeps
the record whose price fails numeric parsing, so the resulting Dataset
contains a record with missing (non-numeric) price, contradicting the claim
that such records are dropped entirely. -/
theorem c3_counterexample :
    (cleanApp2 exTwoRows).toOption.map (fun F => F.colCells "price") =
      some [Cell.num ⟨105, 1⟩, Cell.na] ∧ Cell.na.isNum = false := ⟨rfl, rfl⟩

set_option maxRecDepth 8000 in
/-- Claim C9, counterexample: on input with no column mapping to name,
app.py's cleaning produces the name "Unknown" for the (index 0) record, not
"Product 0": the categorical fill of line 93 creates name before the
synthesis of line 97 is reached. -/
theorem c9_counterexample :
    (cleanApp exNoName).toOption.map (fun F => F.colCells "name") = some [Cell.str "Unknown"] ∧
      Cell.str "Unknown" ≠ Cell.str ("Product " ++ toString 0) := by
  refine ⟨rfl, by decide⟩

set_option maxRecDepth 8000 in
/-- Claim C6, counterexample: on input lacking an origin column, app.py's
cleaning does not materialize origin (it is not in cat_cols), and the
unconditional origin groupby of line 196 then fails with a KeyError, so the
pipeline does not continue without fatal failure. -/
theorem c6_counterexample :
    isErrorWith (appPipeline exNoName) "KeyError: origin" = true ∧
      (cleanApp exNoName).toOption.map (fun F => F.hasCol "origin") = some false := by
  refine ⟨by decide, rfl⟩

set_option maxRecDepth 8000 in
/-- Claim C5: with zero parseable price values, app2.py's price-bounds
computation (lines 72-77) raises ValueError - NaN is truthy in Python, so
`int(df['price'].max())` is evaluated on NaN - and app.py's (line 121)
yields NaN bounds; neither produces a fixed safe interval such as
[0, 1000]. -/
theorem c5_bug_eval :
    ((cleanApp2 exBadPrice).bind priceBoundsApp2 =
      .error "ValueError: cannot convert float NaN to integer") ∧
      ((cleanApp exBadPrice).bind priceBoundsApp = .ok (none, none)) := ⟨rfl, rfl⟩

set_option maxRecDepth 8000 in
/-- Claim C7, counterexample: an app2.py FilteredView of 2 records where one
Sales Volume is unparseable (NaN after coercion): nlargest(2, 'Sales
Volume') returns 1 record, not min(2, 2) = 2, because nlargest excludes
NaN-measure records. -/
theorem c7_counterexample :
    (cleanApp2 exC7Raw).toOption.map
        (fun F =>
          ((applyFilters2 F exC7Spec).rows.length,
           ((applyFilters2 F exC7Spec).nlargest 2 "Sales Volume").rows.length)) =
      some (2, 1) ∧ ¬ (1 = min 2 2) := by
  refine ⟨rfl, by decide⟩

/-- Claim C4, counterexample: on an empty FilteredView app.py's
average-price metric (line 147) renders as "$nan" - the mean of an empty
column is NaN and the f-string formats it as nan - not as the literal
"N/A" the claim requires. -/
theorem c4_counterexample :
    avgPriceText (summaryMetrics exEmptyView).avgPrice = "$nan" ∧
      avgPriceText (summaryMetrics exEmptyView).avgPrice ≠ "N/A" := by
  refine ⟨rfl, by decide⟩

/-- Claim C4 (amended): summary_metrics on an empty FilteredView returns
total_products = 0, total_units = 0, total_revenue = 0 and a missing (NaN)
average price which is rendered "$nan" rather than "N/A"; no
division-by-zero failure occurs (the model is total). -/
theorem c4_empty_summary (F : Table) (h : F.rows = []) :
    summaryMetrics F = ⟨0, 0, 0, none⟩ ∧
      avgPriceText (summaryMetrics F).avgPrice = "$nan" := by
  have h1 : summaryMetrics F = ⟨0, 0, 0, none⟩ := by
    unfold summaryMetrics Table.colRats Table.colCells sumQ
    rw [h]
    rfl
  rw [h1]
  exact ⟨rfl, rfl⟩

/-- Witness for c4_empty_summary at the concrete empty view. -/
theorem c4_witness :
    summaryMetrics exEmptyView = ⟨0, 0, 0, none⟩ ∧
      avgPriceText (summaryMetrics exEmptyView).avgPrice = "$nan" :=
  c4_empty_summary exEmptyView rfl

theorem header_filterRows (F : Table) (p : Row → Bool) : (F.filterRows p).header = F.header := rfl

theorem rows_filterRows (F : Table) (p : Row → Bool) : (F.filterRows p).rows = F.rows.filter p := rfl

theorem cellAt_filterRows (F : Table) (p : Row → Bool) (r : Row) (n : String) :
    (F.filterRows p).cellAt r n = F.cellAt r n := rfl

theorem hasCol_filterRows (F : Table) (p : Row → Bool) (n : String) :
    (F.filterRows p).hasCol n = F.hasCol n := rfl

theorem rows_normHeader (F : Table) : (normHeader F).rows = F.rows := rfl

theorem header_normHeader (F : Table) : (normHeader F).header = F.header.map normName := rfl

theorem aligned_normHeader {F : Table} (hA : F.Aligned) : (normHeader F).Aligned := by
  intro r hr
  rw [header_normHeader, List.length_map]
  exact hA r hr

theorem hasCol_setColWith_of {F : Table} {m : String} (n : String) (f : Row → Cell)
    (h : F.hasCol m = true) : (F.setColWith n f).hasCol m = true :=
  hasCol_setColWith_iff.mpr (Or.inl h)

theorem hasCol_setColWith_self (F : Table) (n : String) (f : Row → Cell) :
    (F.setColWith n f).hasCol n = true :=
  hasCol_setColWith_iff.mpr (Or.inr rfl)

theorem hasCol_setColWith_eq_of_ne {F : Table} {n m : String} {f : Row → Cell} (hmn : m ≠ n) :
    (F.setColWith n f).hasCol m = F.hasCol m := by
  cases h : F.hasCol m
  · cases h2 : (F.setColWith n f).hasCol m
    · rfl
    · rcases hasCol_setColWith_iff.mp h2 with h3 | h3
      · simp [h] at h3
      · exact absurd h3 hmn
  · exact hasCol_setColWith_of n f h

theorem hasCol_fillCat_iff {F : Table} {c m : String} :
    (fillCat F c).hasCol m = true ↔ F.hasCol m = true ∨ m = c := by
  unfold fillCat
  split <;> exact hasCol_setColWith_iff

theorem hasCol_fillCat_of_ne {F : Table} {c m : String} (hmc : m ≠ c) :
    (fillCat F c).hasCol m = F.hasCol m := by
  unfold fillCat
  split <;> exact hasCol_setColWith_eq_of_ne hmc

theorem aligned_fillCat {F : Table} (hA : F.Aligned) (c : String) : (fillCat F c).Aligned := by
  unfold fillCat
  split <;> exact aligned_setColWith hA _ _

theorem headerExt_refl (allowed : List String) (B : Table) : HeaderExt allowed B B :=
  ⟨[], by simp, List.nodup_nil, by simp⟩

theorem headerExt_mono {a1 a2 : List String} (hsub : ∀ c ∈ a1, c ∈ a2) {B F : Table}
    (h : HeaderExt a1 B F) : HeaderExt a2 B F := by
  rcases h with ⟨extra, he, hnd, hmem⟩
  exact ⟨extra, he, hnd, fun c hc => ⟨hsub c (hmem c hc).1, (hmem c hc).2⟩⟩

theorem headerExt_hasCol_of {allowed : List String} {B F : Table}
    (h : HeaderExt allowed B F) {n : String} (hB : B.hasCol n = true) : F.hasCol n = true := by
  rcases h with ⟨extra, he, _, _⟩
  rw [hasCol_iff] at hB ⊢
  rw [he]
  exact List.mem_append_left _ hB

theorem headerExt_hasCol_of_not_allowed {allowed : List String} {B F : Table}
    (h : HeaderExt allowed B F) {n : String} (hn : n ∉ allowed) : F.hasCol n = B.hasCol n := by
  rcases h with ⟨extra, he, _, hmem⟩
  have hne : n ∉ extra := fun hin => hn (hmem n hin).1
  cases hB : B.hasCol n
  · cases hF : F.hasCol n
    · rfl
    · exfalso
      rw [hasCol_iff, he, List.mem_append] at hF
      rcases hF with h1 | h1
      · rw [← hasCol_iff] at h1
        rw [hB] at h1
        cases h1
      · exact hne h1
  · rw [hasCol_iff, he]
    rw [hasCol_iff] at hB
    exact List.mem_append_left _ hB

theorem headerExt_nodup {allowed : List String} {B F : Table}
    (h : HeaderExt allowed B F) (hB : B.header.Nodup) : F.header.Nodup := by
  rcases h with ⟨extra, he, hnd, hmem⟩
  rw [he]
  exact hB.append hnd (fun c hc hcx => (hmem c hcx).2 hc)

theorem headerExt_setColWith {allowed : List String} {B F : Table} {n : String}
    (hn : n ∈ allowed) (f : Row → Cell) (h : HeaderExt allowed B F) :
    HeaderExt allowed B (F.setColWith n f) := by
  rcases h with ⟨extra, he, hnd, hmem⟩
  cases hc : F.hasCol n
  · refine ⟨extra ++ [n], ?_, ?_, ?_⟩
    · rw [header_setColWith, if_neg (by simp [hc]), he, List.append_assoc]
    · have hnx : n ∉ extra := by
        intro hin
        have : n ∈ F.header := by rw [he]; exact List.mem_append_right _ hin
        rw [← hasCol_iff] at this
        rw [hc] at this
        cases this
      simpa [List.nodup_append] using ⟨hnd, hnx⟩
    · intro c hcm
      rcases List.mem_append.mp hcm with h1 | h1
      · exact hmem c h1
      · rcases List.mem_singleton.mp h1 with rfl
        refine ⟨hn, ?_⟩
        intro hin
        have : F.hasCol c = true := by
          rw [hasCol_iff, he]
          exact List.mem_append_left _ hin
        rw [hc] at this
        cases this
  · exact ⟨extra, by rw [header_setColWith, if_pos hc]; exact he, hnd, hmem⟩

theorem headerExt_fillCat {allowed : List String} {B F : Table} {c : String}
    (hc : c ∈ allowed) (h : HeaderExt allowed B F) : HeaderExt allowed B (fillCat F c) := by
  unfold fillCat
  split <;> exact headerExt_setColWith hc _ h

theorem headerExt_filterRows {allowed : List String} {B F : Table} (p : Row → Bool)
    (h : HeaderExt allowed B F) : HeaderExt allowed B (F.filterRows p) := h

theorem fillCat_spec (F : Table) (hA : F.Aligned) (c : String) :
    ∃ tr : Row → Row, (fillCat F c).rows = F.rows.map tr ∧
      ∀ r ∈ F.rows,
        ((fillCat F c).cellAt (tr r) c =
          if F.hasCol c then astypeFillCell (F.cellAt r c) else .str "Unknown") ∧
        ∀ m, m ≠ c → (fillCat F c).cellAt (tr r) m = F.cellAt r m := by
  unfold fillCat
  split <;> rename_i hc
  · refine ⟨F.trCol c fun r => astypeFillCell (F.cellAt r c), rfl, ?_⟩
    intro r hr
    refine ⟨?_, fun m hm => cellAt_trCol_ne hm (hA r hr)⟩
    rw [cellAt_trCol_same (hA r hr)]
  · refine ⟨F.trCol c fun _ => .str "Unknown", rfl, ?_⟩
    intro r hr
    refine ⟨?_, fun m hm => cellAt_trCol_ne hm (hA r hr)⟩
    rw [cellAt_trCol_same (hA r hr)]

theorem foldl_fillCat_spec :
    ∀ (cs : List String) (F : Table), cs.Nodup → F.Aligned →
      ∃ tr : Row → Row, (cs.foldl fillCat F).rows = F.rows.map tr ∧
        ∀ r ∈ F.rows,
          (∀ c ∈ cs, (cs.foldl fillCat F).cellAt (tr r) c =
            if F.hasCol c then astypeFillCell (F.cellAt r c) else .str "Unknown") ∧
          (∀ m, m ∉ cs → (cs.foldl fillCat F).cellAt (tr r) m = F.cellAt r m) := by
  intro cs
  induction cs with
  | nil =>
    intro F _ _
    exact ⟨id, by simp, fun r _ => ⟨fun c hc => absurd hc (List.not_mem_nil c), fun m _ => rfl⟩⟩
  | cons c cs' ih =>
    intro F hnd hA
    have hc_not : c ∉ cs' := (List.nodup_cons.mp hnd).1
    have hnd' : cs'.Nodup := (List.nodup_cons.mp hnd).2
    rcases fillCat_spec F hA c with ⟨tr1, hrows1, hprops1⟩
    have hA1 : (fillCat F c).Aligned := aligned_fillCat hA c
    rcases ih (fillCat F c) hnd' hA1 with ⟨tr2, hrows2, hprops2⟩
    refine ⟨tr2 ∘ tr1, ?_, ?_⟩
    · rw [List.foldl_cons, hrows2, hrows1, List.map_map]
    · intro r hr
      have hr1 : tr1 r ∈ (fillCat F c).rows := by
        rw [hrows1]
        exact List.mem_map_of_mem tr1 hr
      rcases hprops2 (tr1 r) hr1 with ⟨hfill2, hpres2⟩
      rcases hprops1 r hr with ⟨hfill1, hpres1⟩
      constructor
      · intro c' hc'
        rcases List.mem_cons.mp hc' with rfl | hc'm
        · simp only [Function.comp_apply, List.foldl_cons]
          rw [hpres2 c' hc_not, hfill1]
        · have hne : c' ≠ c := fun h => hc_not (h ▸ hc'm)
          simp only [Function.comp_apply, List.foldl_cons]
          rw [hfill2 c' hc'm, hpres1 c' hne, hasCol_fillCat_of_ne hne]
      · intro m hm
        have hm1 : m ≠ c := fun h => hm (h ▸ List.mem_cons_self c cs')
        have hm2 : m ∉ cs' := fun h => hm (List.mem_cons_of_mem c h)
        simp only [Function.comp_apply, List.foldl_cons]
        rw [hpres2 m hm2, hpres1 m hm1]

theorem aligned_foldl_fillCat :
    ∀ (cs : List String) (F : Table), F.Aligned → (cs.foldl fillCat F).Aligned := by
  intro cs
  induction cs with
  | nil => intro F hA; exact hA
  | cons c cs' ih =>
    intro F hA
    rw [List.foldl_cons]
    exact ih _ (aligned_fillCat hA c)

theorem headerExt_foldl_fillCat {allowed : List String} {B : Table} :
    ∀ (cs : List String) (F : Table), (∀ c ∈ cs, c ∈ allowed) →
      HeaderExt allowed B F → HeaderExt allowed B (cs.foldl fillCat F) := by
  intro cs
  induction cs with
  | nil => intro F _ h; exact h
  | cons c cs' ih =>
    intro F hsub h
    rw [List.foldl_cons]
    exact ih _ (fun c' hc' => hsub c' (List.mem_cons_of_mem c hc'))
      (headerExt_fillCat (hsub c (List.mem_cons_self c cs')) h)

theorem hasCol_foldl_fillCat_of :
    ∀ (cs : List String) (F : Table) {m : String}, F.hasCol m = true →
      (cs.foldl fillCat F).hasCol m = true := by
  intro cs
  induction cs with
  | nil => intro F m h; exact h
  | cons c cs' ih =>
    intro F m h
    rw [List.foldl_cons]
    refine ih _ ?_
    unfold fillCat
    split <;> exact hasCol_setColWith_of _ _ h

theorem hasCol_foldl_fillCat_mem :
    ∀ (cs : List String) (F : Table) {c : String}, c ∈ cs →
      (cs.foldl fillCat F).hasCol c = true := by
  intro cs
  induction cs with
  | nil => intro F c h; cases h
  | cons a cs' ih =>
    intro F c h
    rw [List.foldl_cons]
    rcases List.mem_cons.mp h with rfl | hm
    · refine hasCol_foldl_fillCat_of cs' _ ?_
      unfold fillCat
      split <;> exact hasCol_setColWith_self _ _ _
    · exact ih _ hm

theorem setColWith_spec (F : Table) (hA : F.Aligned) (n : String) (f : Row → Cell) :
    ∃ tr : Row → Row, (F.setColWith n f).rows = F.rows.map tr ∧
      ∀ r ∈ F.rows, (F.setColWith n f).cellAt (tr r) n = f r ∧
        ∀ m, m ≠ n → (F.setColWith n f).cellAt (tr r) m = F.cellAt r m :=
  ⟨F.trCol n f, rfl, fun r hr =>
    ⟨cellAt_trCol_same (hA r hr), fun _ hm => cellAt_trCol_ne hm (hA r hr)⟩⟩

theorem toNumericCell_shape (c : Cell) :
    toNumericCell c = Cell.na ∨ ∃ d, toNumericCell c = Cell.num d := by
  cases c with
  | na => exact Or.inl rfl
  | num d => exact Or.inr ⟨d, rfl⟩
  | str s =>
    rw [toNumericCell]
    split
    · exact Or.inl rfl
    · split
      · rename_i d _
        exact Or.inr ⟨d, rfl⟩
      · exact Or.inl rfl

theorem toNumericCell_naOrNum (c : Cell) :
    (toNumericCell c).isNa = true ∨ (toNumericCell c).isNum = true := by
  rcases toNumericCell_shape c with h | ⟨d, h⟩ <;> rw [h]
  · exact Or.inl rfl
  · exact Or.inr rfl

theorem isNum_of_naOrNum {c : Cell} (h : c.isNa = true ∨ c.isNum = true)
    (hna : c.isNa = false) : c.isNum = true := by
  rcases h with h | h
  · rw [h] at hna
    cases hna
  · exact h

theorem salesFallback_ok_eq {F F1 : Table} (h : salesFallback F = .ok F1) : F1 = F := by
  unfold salesFallback at h
  split at h
  · exact (Except.ok.inj h).symm
  · split at h
    · cases h
    · exact (Except.ok.inj h).symm

theorem salesFallback_ok_of_hasVol {F : Table} (h : F.hasCol "Sales Volume" = true) :
    salesFallback F = .ok F := by
  unfold salesFallback
  rw [if_pos h]

theorem aligned_cleanVol {F : Table} (hA : F.Aligned) : (cleanVol F).Aligned := by
  unfold cleanVol
  split <;> exact aligned_setColWith hA _ _

theorem hasCol_vol_cleanVol (F : Table) : (cleanVol F).hasCol "Sales Volume" = true := by
  unfold cleanVol
  split <;> exact hasCol_setColWith_self _ _ _

theorem hasCol_cleanVol_of {F : Table} {m : String} (h : F.hasCol m = true) :
    (cleanVol F).hasCol m = true := by
  unfold cleanVol
  split <;> exact hasCol_setColWith_of _ _ h

theorem headerExt_cleanVol {allowed : List String} {B F : Table}
    (hv : "Sales Volume" ∈ allowed) (h : HeaderExt allowed B F) :
    HeaderExt allowed B (cleanVol F) := by
  unfold cleanVol
  split <;> exact headerExt_setColWith hv _ h

theorem cleanVol_spec (F : Table) (hA : F.Aligned) :
    ∃ tr : Row → Row, (cleanVol F).rows = F.rows.map tr ∧
      ∀ r ∈ F.rows,
        (((cleanVol F).cellAt (tr r) "Sales Volume").isNa = true ∨
          ((cleanVol F).cellAt (tr r) "Sales Volume").isNum = true) ∧
        ∀ m, m ≠ "Sales Volume" → (cleanVol F).cellAt (tr r) m = F.cellAt r m := by
  unfold cleanVol
  split
  · rcases setColWith_spec F hA "Sales Volume" (fun r => toNumericCell (F.cellAt r "Sales Volume"))
      with ⟨tr, h1, h2⟩
    refine ⟨tr, h1, fun r hr => ⟨?_, (h2 r hr).2⟩⟩
    rw [(h2 r hr).1]
    exact toNumericCell_naOrNum _
  · rcases setColWith_spec F hA "Sales Volume" (fun _ => Cell.num ⟨0, 0⟩) with ⟨tr, h1, h2⟩
    refine ⟨tr, h1, fun r hr => ⟨?_, (h2 r hr).2⟩⟩
    rw [(h2 r hr).1]
    exact Or.inr rfl

theorem aligned_cleanPrice {F : Table} (hA : F.Aligned) : (cleanPrice F).Aligned :=
  aligned_setColWith hA _ _

theorem aligned_addRevenue {F : Table} (hA : F.Aligned) : (addRevenue F).Aligned :=
  aligned_setColWith hA _ _

theorem aligned_dropNa {F : Table} (hA : F.Aligned) : (dropNaPriceVol F).Aligned :=
  aligned_filterRows hA _

theorem cellAt_dropNa (F : Table) (r : Row) (n : String) :
    (dropNaPriceVol F).cellAt r n = F.cellAt r n := rfl

theorem cleanPrice_spec (F : Table) (hA : F.Aligned) :
    ∃ tr : Row → Row, (cleanPrice F).rows = F.rows.map tr ∧
      ∀ r ∈ F.rows,
        (cleanPrice F).cellAt (tr r) "price" = toNumericCell (F.cellAt r "price") ∧
        ∀ m, m ≠ "price" → (cleanPrice F).cellAt (tr r) m = F.cellAt r m :=
  setColWith_spec F hA _ _

theorem addRevenue_spec (F : Table) (hA : F.Aligned) :
    ∃ tr : Row → Row, (addRevenue F).rows = F.rows.map tr ∧
      ∀ r ∈ F.rows,
        (addRevenue F).cellAt (tr r) "Revenue" =
          mulCell (F.cellAt r "price") (F.cellAt r "Sales Volume") ∧
        ∀ m, m ≠ "Revenue" → (addRevenue F).cellAt (tr r) m = F.cellAt r m :=
  setColWith_spec F hA _ _

theorem pipeline_spec (B B1 B3 B4 B5 B6 : Table) (hAB : B.Aligned)
    (e1 : B1 = cleanPrice B) (e3 : B3 = cleanVol B1)
    (e4 : B4 = dropNaPriceVol B3) (e5 : B5 = addRevenue B4)
    (e6 : B6 = catCols.foldl fillCat B5) :
    CleanProps B (nameDefault B6) := by
  have hA1 : B1.Aligned := e1 ▸ aligned_cleanPrice hAB
  have hA3 : B3.Aligned := e3 ▸ aligned_cleanVol hA1
  have hA4 : B4.Aligned := e4 ▸ aligned_dropNa hA3
  have hA5 : B5.Aligned := e5 ▸ aligned_addRevenue hA4
  have hA6 : B6.Aligned := e6 ▸ aligned_foldl_fillCat catCols B5 hA5
  have hname6 : B6.hasCol "name" = true :=
    e6 ▸ hasCol_foldl_fillCat_mem catCols B5 (by decide)
  have hF6 : nameDefault B6 = B6 := by
    unfold nameDefault
    rw [if_pos hname6]
  have hp1 : B1.hasCol "price" = true := e1 ▸ hasCol_setColWith_self _ _ _
  have hp3 : B3.hasCol "price" = true := e3 ▸ hasCol_cleanVol_of hp1
  have hp4 : B4.hasCol "price" = true := by rw [e4]; exact hp3
  have hp5 : B5.hasCol "price" = true := e5 ▸ hasCol_setColWith_of _ _ hp4
  have hp6 : B6.hasCol "price" = true := e6 ▸ hasCol_foldl_fillCat_of catCols B5 hp5
  have hv3 : B3.hasCol "Sales Volume" = true := e3 ▸ hasCol_vol_cleanVol B1
  have hv4 : B4.hasCol "Sales Volume" = true := by rw [e4]; exact hv3
  have hv5 : B5.hasCol "Sales Volume" = true := e5 ▸ hasCol_setColWith_of _ _ hv4
  have hv6 : B6.hasCol "Sales Volume" = true := e6 ▸ hasCol_foldl_fillCat_of catCols B5 hv5
  have hr5 : B5.hasCol "Revenue" = true := e5 ▸ hasCol_setColWith_self _ _ _
  have hr6 : B6.hasCol "Revenue" = true := e6 ▸ hasCol_foldl_fillCat_of catCols B5 hr5
  have hx1 : HeaderExt ["price", "Sales Volume", "Revenue"] B B1 :=
    e1 ▸ headerExt_setColWith (by decide) _ (headerExt_refl _ B)
  have hx3 : HeaderExt ["price", "Sales Volume", "Revenue"] B B3 :=
    e3 ▸ headerExt_cleanVol (by decide) hx1
  have hx4 : HeaderExt ["price", "Sales Volume", "Revenue"] B B4 :=
    e4 ▸ headerExt_filterRows _ hx3
  have hx5 : HeaderExt ["price", "Sales Volume", "Revenue"] B B5 :=
    e5 ▸ headerExt_setColWith (by decide) _ hx4
  have hx6 : HeaderExt specialCols B B6 :=
    e6 ▸ headerExt_foldl_fillCat catCols B5 (by decide) (headerExt_mono (by decide) hx5)
  rw [hF6]
  refine ⟨hA6, hx6, hp6, hv6, hr6,
    fun c hc => e6 ▸ hasCol_foldl_fillCat_mem catCols B5 hc, ?_⟩
  -- row provenance
  obtain ⟨tr6, hrows6, hprops6⟩ := foldl_fillCat_spec catCols B5 (by decide) hA5
  rw [← e6] at hrows6 hprops6
  obtain ⟨tr5, hrows5, hprops5⟩ := addRevenue_spec B4 hA4
  rw [← e5] at hrows5 hprops5
  obtain ⟨tr3, hrows3, hprops3⟩ := cleanVol_spec B1 hA1
  rw [← e3] at hrows3 hprops3
  obtain ⟨tr1, hrows1, hprops1⟩ := cleanPrice_spec B hAB
  rw [← e1] at hrows1 hprops1
  have hrows4 : B4.rows = B3.rows.filter
      (fun r => !(B3.cellAt r "price").isNa && !(B3.cellAt r "Sales Volume").isNa) := by
    rw [e4]
    rfl
  have hcell4 : ∀ r n, B4.cellAt r n = B3.cellAt r n := by
    intro r n
    rw [e4]
    rfl
  intro r' hr'
  rw [hrows6] at hr'
  obtain ⟨r5, hr5m, he6⟩ := List.mem_map.mp hr'
  have hr5B := hr5m
  rw [hrows5] at hr5B
  obtain ⟨r4, hr4m, he5⟩ := List.mem_map.mp hr5B
  have hr4B := hr4m
  rw [hrows4] at hr4B
  obtain ⟨hr4m3, hpred⟩ := List.mem_filter.mp hr4B
  have hr4C := hr4m3
  rw [hrows3] at hr4C
  obtain ⟨r3, hr3m, he4⟩ := List.mem_map.mp hr4C
  have hr3B := hr3m
  rw [hrows1] at hr3B
  obtain ⟨r, hrm, he2⟩ := List.mem_map.mp hr3B
  refine ⟨r, hrm, ?_⟩
  obtain ⟨hpna, hvna⟩ := Bool.and_eq_true_iff.mp hpred
  have hpna' : (B3.cellAt r4 "price").isNa = false := by
    cases h : (B3.cellAt r4 "price").isNa
    · rfl
    · rw [h] at hpna
      cases hpna
  have hvna' : (B3.cellAt r4 "Sales Volume").isNa = false := by
    cases h : (B3.cellAt r4 "Sales Volume").isNa
    · rfl
    · rw [h] at hvna
      cases hvna
  -- price value at level 3
  have hP3 : B3.cellAt r4 "price" = toNumericCell (B.cellAt r "price") := by
    have h3 := (hprops3 r3 hr3m).2 "price" (by decide)
    rw [he4] at h3
    have h1 := (hprops1 r hrm).1
    rw [he2] at h1
    rw [h3, h1]
  -- level-3 sales volume is NaN or numeric
  have hV3 : (B3.cellAt r4 "Sales Volume").isNa = true ∨
      (B3.cellAt r4 "Sales Volume").isNum = true := by
    have h3 := (hprops3 r3 hr3m).1
    rw [he4] at h3
    exact h3
  -- values propagated from level 3/4 to level 6
  have hP6 : B6.cellAt r' "price" = B3.cellAt r4 "price" := by
    have h6 := (hprops6 r5 hr5m).2 "price" (by decide)
    rw [he6] at h6
    have h5 := (hprops5 r4 hr4m).2 "price" (by decide)
    rw [he5] at h5
    rw [h6, h5, hcell4]
  have hV6 : B6.cellAt r' "Sales Volume" = B3.cellAt r4 "Sales Volume" := by
    have h6 := (hprops6 r5 hr5m).2 "Sales Volume" (by decide)
    rw [he6] at h6
    have h5 := (hprops5 r4 hr4m).2 "Sales Volume" (by decide)
    rw [he5] at h5
    rw [h6, h5, hcell4]
  have hR6 : B6.cellAt r' "Revenue" =
      mulCell (B3.cellAt r4 "price") (B3.cellAt r4 "Sales Volume") := by
    have h6 := (hprops6 r5 hr5m).2 "Revenue" (by decide)
    rw [he6] at h6
    have h5 := (hprops5 r4 hr4m).1
    rw [he5] at h5
    rw [h6, h5, hcell4, hcell4]
  refine ⟨?_, ?_, ?_, ?_, ?_, ?_⟩
  · rw [hP6, hP3]
  · rw [hP6]
    exact isNum_of_naOrNum (by rw [hP3]; exact toNumericCell_naOrNum _) hpna'
  · rw [hV6]
    exact isNum_of_naOrNum hV3 hvna'
  · rw [hR6, hP6, hV6]
  · intro c hc
    have hcp : c ≠ "price" :=
      (by decide : ∀ x ∈ catCols, x ≠ "price") c hc
    have hcv : c ≠ "Sales Volume" :=
      (by decide : ∀ x ∈ catCols, x ≠ "Sales Volume") c hc
    have hcr : c ≠ "Revenue" :=
      (by decide : ∀ x ∈ catCols, x ≠ "Revenue") c hc
    have hBc : B5.hasCol c = B.hasCol c :=
      headerExt_hasCol_of_not_allowed hx5
        ((by decide :
          ∀ x ∈ catCols, x ∉ (["price", "Sales Volume", "Revenue"] : List String)) c hc)
    have hC5 : B5.cellAt r5 c = B.cellAt r c := by
      have h5 := (hprops5 r4 hr4m).2 c hcr
      rw [he5] at h5
      have h3 := (hprops3 r3 hr3m).2 c hcv
      rw [he4] at h3
      have h1 := (hprops1 r hrm).2 c hcp
      rw [he2] at h1
      rw [h5, hcell4, h3, h1]
    have h6 := (hprops6 r5 hr5m).1 c hc
    rw [he6] at h6
    rw [h6, hBc, hC5]
  · intro m hm
    have hmp : m ≠ "price" := fun he => hm (he ▸ (by decide : "price" ∈ specialCols))
    have hmv : m ≠ "Sales Volume" :=
      fun he => hm (he ▸ (by decide : "Sales Volume" ∈ specialCols))
    have hmr : m ≠ "Revenue" := fun he => hm (he ▸ (by decide : "Revenue" ∈ specialCols))
    have hmc : m ∉ catCols := by
      intro hmem
      refine hm ?_
      unfold specialCols
      exact List.mem_cons_of_mem _ (List.mem_cons_of_mem _ (List.mem_cons_of_mem _ hmem))
    have h6 := (hprops6 r5 hr5m).2 m hmc
    rw [he6] at h6
    have h5 := (hprops5 r4 hr4m).2 m hmr
    rw [he5] at h5
    have h3 := (hprops3 r3 hr3m).2 m hmv
    rw [he4] at h3
    have h1 := (hprops1 r hrm).2 m hmp
    rw [he2] at h1
    rw [h6, h5, hcell4, h3, h1]

theorem cleanApp_eq_of_some {F0 F1 : Table} {i : Nat}
    (hpi : (normHeader F0).colIdx "price" = some i)
    (hsf : salesFallback (cleanPrice (normHeader F0)) = .ok F1) :
    cleanApp F0 = .ok (nameDefault (catCols.foldl fillCat (addRevenue (dropNaPriceVol
      (cleanVol F1))))) := by
  unfold cleanApp
  rw [hpi, hsf]

theorem cleanApp_eq_of_none {F0 : Table}
    (hpi : (normHeader F0).colIdx "price" = none) :
    cleanApp F0 = .error "KeyError: price" := by
  unfold cleanApp
  rw [hpi]

theorem cleanApp_spec {F0 F' : Table} (hA0 : F0.Aligned) (h : cleanApp F0 = .ok F') :
    CleanProps (normHeader F0) F' := by
  cases hpi : (normHeader F0).colIdx "price" with
  | none =>
    rw [cleanApp_eq_of_none hpi] at h
    cases h
  | some i0 =>
    cases hsf : salesFallback (cleanPrice (normHeader F0)) with
    | error e =>
      have hceq : cleanApp F0 = .error e := by
        unfold cleanApp
        rw [hpi, hsf]
      rw [hceq] at h
      cases h
    | ok F1 =>
      rw [cleanApp_eq_of_some hpi hsf] at h
      have h2 := Except.ok.inj h
      subst h2
      have he := salesFallback_ok_eq hsf
      subst he
      exact pipeline_spec _ _ _ _ _ _ (aligned_normHeader hA0) rfl rfl rfl rfl rfl

theorem astypeFillCell_isStr (c : Cell) : ∃ s, astypeFillCell c = .str s := by
  cases c with
  | na => exact ⟨"Unknown", rfl⟩
  | str s => exact ⟨s, rfl⟩
  | num d => exact ⟨⟨d.print⟩, rfl⟩

theorem isNum_iff {c : Cell} : c.isNum = true ↔ ∃ d, c = .num d := by
  cases c <;> simp [Cell.isNum]

/-- Claim C10: after the cleaning phase of app.py, the columns Promotion,
Product Position, Seasonal, section, season, material and name all exist
and every one of their values is a non-missing string; this is the state of
the Dataset handed to every filter, groupby and export. -/
theorem c10_cat_invariant {F0 F' : Table} (hA0 : F0.Aligned)
    (h : cleanApp F0 = .ok F') :
    ∀ c ∈ catCols, F'.hasCol c = true ∧
      ∀ r' ∈ F'.rows, ∃ s : String, F'.cellAt r' c = .str s := by
  have hs := cleanApp_spec hA0 h
  intro c hc
  refine ⟨hs.hasCats c hc, ?_⟩
  intro r' hr'
  rcases hs.rowSpec r' hr' with ⟨r, _, _, _, _, _, hcat, _⟩
  rw [hcat c hc]
  split
  · exact astypeFillCell_isStr _
  · exact ⟨"Unknown", rfl⟩

set_option maxRecDepth 8000 in
/-- Witness for c10_cat_invariant on a concrete raw table. -/
theorem c10_witness :
    exTwoRowsClean.hasCol "season" = true ∧
      ∀ r' ∈ exTwoRowsClean.rows, ∃ s : String,
        exTwoRowsClean.cellAt r' "season" = .str s :=
  @c10_cat_invariant exTwoRows exTwoRowsClean (by decide) (by rfl) "season" (by decide)

theorem rows_length_setColWith (F : Table) (n : String) (f : Row → Cell) :
    (F.setColWith n f).rows.length = F.rows.length := by
  rw [rows_setColWith, List.length_map]

/-- Claim C3 (amended): app.py's cleaning drops every record whose price or
Sales Volume is missing or fails numeric parsing - every record of its
Dataset has numeric price and Sales Volume - while app2.py's cleaning only
coerces and never drops a record (the row count is preserved). -/
theorem c3_drop_split :
    (∀ F0 F' : Table, F0.Aligned → cleanApp F0 = .ok F' →
      ∀ r' ∈ F'.rows, (F'.cellAt r' "price").isNum = true ∧
        (F'.cellAt r' "Sales Volume").isNum = true) ∧
    (∀ F F'' : Table, cleanApp2 F = .ok F'' → F''.rows.length = F.rows.length) := by
  constructor
  · intro F0 F' hA0 h r' hr'
    rcases (cleanApp_spec hA0 h).rowSpec r' hr' with ⟨r, _, _, hpn, hvn, _, _, _⟩
    exact ⟨hpn, hvn⟩
  · intro F F'' h
    unfold cleanApp2 at h
    cases h1 : F.colIdx "Sales Volume" with
    | none =>
      rw [h1] at h
      cases h
    | some i =>
      rw [h1] at h
      cases h2 : (cleanVol2 F).colIdx "price" with
      | none =>
        rw [h2] at h
        cases h
      | some j =>
        rw [h2] at h
        have h3 := Except.ok.inj h
        subst h3
        show (addRevenue (cleanPrice (cleanVol2 F))).rows.length = F.rows.length
        unfold addRevenue cleanPrice cleanVol2
        rw [rows_length_setColWith, rows_length_setColWith, rows_length_setColWith]

set_option maxRecDepth 8000 in
/-- Witness for c3_drop_split on concrete raw tables. -/
theorem c3_witness :
    (∀ r' ∈ exTwoRowsClean.rows, (exTwoRowsClean.cellAt r' "price").isNum = true ∧
      (exTwoRowsClean.cellAt r' "Sales Volume").isNum = true) ∧
    exTwoRowsClean2.rows.length = exTwoRows.rows.length :=
  ⟨c3_drop_split.1 exTwoRows exTwoRowsClean (by decide) (by rfl),
   c3_drop_split.2 exTwoRows exTwoRowsClean2 (by rfl)⟩

/-- Claim C9 (amended): when no source column maps to name, app.py's
cleaning gives every record the name "Unknown", not "Product " + row index:
the categorical fill (lines 88-93, which includes name) always materializes
name, so the synthesis of lines 96-97 is unreachable. -/
theorem c9_name_unknown {F0 F' : Table} (hA0 : F0.Aligned) (h : cleanApp F0 = .ok F')
    (hnm : (normHeader F0).hasCol "name" = false) :
    F'.hasCol "name" = true ∧
      ∀ r' ∈ F'.rows, F'.cellAt r' "name" = .str "Unknown" := by
  have hs := cleanApp_spec hA0 h
  refine ⟨hs.hasCats "name" (by decide), ?_⟩
  intro r' hr'
  rcases hs.rowSpec r' hr' with ⟨r, _, _, _, _, _, hcat, _⟩
  rw [hcat "name" (by decide), if_neg (by simp [hnm])]

set_option maxRecDepth 8000 in
/-- Witness for c9_name_unknown on a concrete raw table without a name
column. -/
theorem c9_witness :
    (exNoNameClean.hasCol "name" = true ∧
      ∀ r' ∈ exNoNameClean.rows, exNoNameClean.cellAt r' "name" = .str "Unknown") :=
  @c9_name_unknown exNoName exNoNameClean (by decide) (by rfl) (by decide)

theorem colIdx_eq_none_of_hasCol_false {F : Table} {n : String} (h : F.hasCol n = false) :
    F.colIdx n = none := by
  unfold Table.hasCol at h
  exact Option.not_isSome_iff_eq_none.mp (by simp [h])

theorem groupSum_error {F : Table} {c : String} (h : F.colIdx c = none) (v : String) :
    F.groupSum c v = .error ("KeyError: " ++ c) := by
  unfold Table.groupSum
  rw [h]

theorem appPipeline_eq_error {F F' : Table} {e : String} (h : cleanApp F = .ok F')
    (hg : F'.groupSum "origin" "Sales Volume" = .error e) : appPipeline F = .error e := by
  unfold appPipeline
  rw [h]
  show (match F'.groupSum "origin" "Sales Volume" with
    | .error e => (.error e : Except String Table)
    | .ok _ => .ok F') = .error e
  rw [hg]

/-- Claim C6 (amended): when a categorical column among Promotion, Product
Position, Seasonal, section, season, material (or name) is entirely absent
after alias mapping, app.py materializes it filled with "Unknown" for every
record and the cleaning completes - provided the price column exists and the
sales-volume fallback of lines 72-77 does not fire (hypothesis hsf; when
"Sales Volume" is absent and some column is lower-named in the fallback
list, line 76 calls .iloc on a pandas Index and the cleaning instead dies
with AttributeError, as modelled by salesFallback).  origin, however, is not
in cat_cols: it is never materialized, and on input lacking origin the
pipeline fails with a KeyError at the unconditional origin groupby of line
196. -/
theorem c6_fill_absent {F0 : Table} (hA0 : F0.Aligned) {i : Nat}
    (hp : (normHeader F0).colIdx "price" = some i)
    (hsf : salesFallback (cleanPrice (normHeader F0)) = .ok (cleanPrice (normHeader F0))) :
    ∃ F', cleanApp F0 = .ok F' ∧
      (∀ c ∈ catCols, (normHeader F0).hasCol c = false →
        F'.hasCol c = true ∧ ∀ r' ∈ F'.rows, F'.cellAt r' c = .str "Unknown") ∧
      ((normHeader F0).hasCol "origin" = false →
        F'.hasCol "origin" = false ∧ appPipeline F0 = .error "KeyError: origin") := by
  have hok := cleanApp_eq_of_some hp hsf
  have hs := cleanApp_spec hA0 hok
  refine ⟨_, hok, ?_, ?_⟩
  · intro c hc habs
    refine ⟨hs.hasCats c hc, ?_⟩
    intro r' hr'
    rcases hs.rowSpec r' hr' with ⟨r, _, _, _, _, _, hcat, _⟩
    rw [hcat c hc, if_neg (by simp [habs])]
  · intro horig
    have hOr : (nameDefault (catCols.foldl fillCat (addRevenue (dropNaPriceVol
        (cleanVol (cleanPrice (normHeader F0))))))).hasCol "origin" = false := by
      rw [headerExt_hasCol_of_not_allowed hs.headerExt
        (by decide : "origin" ∉ specialCols)]
      exact horig
    refine ⟨hOr, ?_⟩
    have hgs := groupSum_error (colIdx_eq_none_of_hasCol_false hOr) "Sales Volume"
    exact appPipeline_eq_error hok hgs

set_option maxRecDepth 8000 in
/-- Witness for c6_fill_absent on a concrete raw table lacking the
categorical columns and origin. -/
theorem c6_witness :
    ∃ F', cleanApp exNoName = .ok F' ∧
      (∀ c ∈ catCols, (normHeader exNoName).hasCol c = false →
        F'.hasCol c = true ∧ ∀ r' ∈ F'.rows, F'.cellAt r' c = .str "Unknown") ∧
      ((normHeader exNoName).hasCol "origin" = false →
        F'.hasCol "origin" = false ∧ appPipeline exNoName = .error "KeyError: origin") :=
  @c6_fill_absent exNoName (by decide) 0 (by rfl) (by rfl)

theorem Decimal.toRat_mul (a b : Decimal) : (a.mul b).toRat = a.toRat * b.toRat := by
  unfold Decimal.toRat Decimal.mul
  rw [Rat.mkRat_eq_div, Rat.mkRat_eq_div, Rat.mkRat_eq_div]
  push_cast
  rw [pow_add]
  have h1 : ((10 : ℚ) ^ a.e) ≠ 0 := by positivity
  have h2 : ((10 : ℚ) ^ b.e) ≠ 0 := by positivity
  field_simp

theorem sum_revenue_eq (F' : Table) :
    ∀ l : List Row, (∀ r ∈ l, ∃ dp dv : Decimal,
      F'.cellAt r "price" = .num dp ∧ F'.cellAt r "Sales Volume" = .num dv ∧
        F'.cellAt r "Revenue" = .num (dp.mul dv)) →
      (l.map fun r => F'.cellAt r "Revenue").filterMap Cell.rat? =
        l.map fun r =>
          ((F'.cellAt r "price").rat?).getD 0 * ((F'.cellAt r "Sales Volume").rat?).getD 0 := by
  intro l
  induction l with
  | nil => intro _; rfl
  | cons r t ih =>
    intro hl
    rcases hl r (List.mem_cons_self r t) with ⟨dp, dv, hdp, hdv, hrev⟩
    rw [List.map_cons, List.map_cons, List.filterMap_cons, hrev, hdp, hdv]
    show (dp.mul dv).toRat :: (t.map fun r => F'.cellAt r "Revenue").filterMap Cell.rat? = _
    rw [ih (fun r hr => hl r (List.mem_cons_of_mem _ hr)), Decimal.toRat_mul]
    rfl

/-- Claim C2: in app.py's normalized Dataset every record's Revenue cell is
exactly the product of its price and Sales Volume cells; consequently, for
every row selection (in particular every FilteredView) the sum of Revenue
over the view equals the sum of price times Sales Volume computed directly
over the same records. -/
theorem c2_revenue_consistency {F0 F' : Table} (hA0 : F0.Aligned)
    (h : cleanApp F0 = .ok F') :
    (∀ r' ∈ F'.rows, ∃ dp dv : Decimal,
      F'.cellAt r' "price" = .num dp ∧ F'.cellAt r' "Sales Volume" = .num dv ∧
        F'.cellAt r' "Revenue" = .num (dp.mul dv)) ∧
    ∀ p : Row → Bool,
      sumQ ((F'.filterRows p).colRats "Revenue") =
        sumQ ((F'.filterRows p).rows.map fun r =>
          ((F'.cellAt r "price").rat?).getD 0 * ((F'.cellAt r "Sales Volume").rat?).getD 0) := by
  have hs := cleanApp_spec hA0 h
  have hrow : ∀ r' ∈ F'.rows, ∃ dp dv : Decimal,
      F'.cellAt r' "price" = .num dp ∧ F'.cellAt r' "Sales Volume" = .num dv ∧
        F'.cellAt r' "Revenue" = .num (dp.mul dv) := by
    intro r' hr'
    rcases hs.rowSpec r' hr' with ⟨r, _, _, hpn, hvn, hrev, _, _⟩
    rcases isNum_iff.mp hpn with ⟨dp, hdp⟩
    rcases isNum_iff.mp hvn with ⟨dv, hdv⟩
    refine ⟨dp, dv, hdp, hdv, ?_⟩
    rw [hrev, hdp, hdv]
    rfl
  refine ⟨hrow, ?_⟩
  intro p
  unfold Table.colRats Table.colCells
  rw [rows_filterRows]
  simp only [cellAt_filterRows]
  rw [sum_revenue_eq F' (F'.rows.filter p) fun r hr => hrow r (List.mem_of_mem_filter hr)]

set_option maxRecDepth 8000 in
/-- Witness for c2_revenue_consistency on a concrete raw table and the
all-pass selection. -/
theorem c2_witness :
    (∀ r' ∈ exTwoRowsClean.rows, ∃ dp dv : Decimal,
      exTwoRowsClean.cellAt r' "price" = .num dp ∧
        exTwoRowsClean.cellAt r' "Sales Volume" = .num dv ∧
        exTwoRowsClean.cellAt r' "Revenue" = .num (dp.mul dv)) ∧
    sumQ ((exTwoRowsClean.filterRows fun _ => true).colRats "Revenue") =
      sumQ ((exTwoRowsClean.filterRows fun _ => true).rows.map fun r =>
        ((exTwoRowsClean.cellAt r "price").rat?).getD 0 *
          ((exTwoRowsClean.cellAt r "Sales Volume").rat?).getD 0) :=
  ⟨(@c2_revenue_consistency exTwoRows exTwoRowsClean (by decide) (by rfl)).1,
   (@c2_revenue_consistency exTwoRows exTwoRowsClean (by decide) (by rfl)).2 (fun _ => true)⟩

theorem cellInSel_iff {c : Cell} {sel : List String} :
    cellInSel c sel = true ↔ ∃ v, c = .str v ∧ v ∈ sel := by
  cases c with
  | na => simp [cellInSel]
  | str s => simp [cellInSel]
  | num d => simp [cellInSel]

theorem cellBetween_iff {c : Cell} {lo hi : ℚ} :
    cellBetween c lo hi = true ↔ ∃ d, c = .num d ∧ lo ≤ d.toRat ∧ d.toRat ≤ hi := by
  cases c <;> simp [cellBetween]

theorem rowPass_iff {F : Table} {s : FilterSpec} {r : Row} :
    rowPass F s r = true ↔ FilterSpecSat F s r := by
  unfold rowPass FilterSpecSat
  simp only [Bool.and_eq_true, cellInSel_iff, cellBetween_iff, and_assoc]

/-- Claim C1: app.py's filtered_df is exactly the subsequence of the
Dataset's records whose Promotion, Product Position, Seasonal, section,
season and material values are members of the corresponding selected sets
and whose price lies in the inclusive slider interval; when any selected
categorical set is empty the FilteredView is empty. -/
theorem c1_filter_exact (F : Table) (s : FilterSpec) :
    (applyFilters F s).rows.Sublist F.rows ∧
    (∀ r, r ∈ (applyFilters F s).rows ↔ r ∈ F.rows ∧ FilterSpecSat F s r) ∧
    ((s.promotion = [] ∨ s.position = [] ∨ s.seasonal = [] ∨ s.sectionSel = [] ∨
        s.season = [] ∨ s.material = []) → (applyFilters F s).rows = []) := by
  refine ⟨List.filter_sublist _, ?_, ?_⟩
  · intro r
    rw [show (applyFilters F s).rows = F.rows.filter (rowPass F s) from rfl, List.mem_filter]
    exact and_congr_right fun _ => rowPass_iff
  · intro hemp
    rw [show (applyFilters F s).rows = F.rows.filter (rowPass F s) from rfl]
    refine List.filter_eq_nil_iff.mpr ?_
    intro r _ hpass
    rcases rowPass_iff.mp hpass with
      ⟨⟨v1, _, hv1⟩, ⟨v2, _, hv2⟩, ⟨v3, _, hv3⟩, ⟨v4, _, hv4⟩, ⟨v5, _, hv5⟩, ⟨v6, _, hv6⟩, _⟩
    rcases hemp with he | he | he | he | he | he
    · rw [he] at hv1
      exact absurd hv1 (List.not_mem_nil v1)
    · rw [he] at hv2
      exact absurd hv2 (List.not_mem_nil v2)
    · rw [he] at hv3
      exact absurd hv3 (List.not_mem_nil v3)
    · rw [he] at hv4
      exact absurd hv4 (List.not_mem_nil v4)
    · rw [he] at hv5
      exact absurd hv5 (List.not_mem_nil v5)
    · rw [he] at hv6
      exact absurd hv6 (List.not_mem_nil v6)

/-- Witness for c1_filter_exact: membership characterization and the
empty-selection clause evaluated at a concrete view. -/
theorem c1_witness :
    (exC1Row ∈ (applyFilters exC1View exC1SpecEmpty).rows ↔
      (exC1Row ∈ exC1View.rows ∧ FilterSpecSat exC1View exC1SpecEmpty exC1Row)) ∧
    (applyFilters exC1View exC1SpecEmpty).rows = [] :=
  ⟨(c1_filter_exact exC1View exC1SpecEmpty).2.1 exC1Row,
   (c1_filter_exact exC1View exC1SpecEmpty).2.2 (Or.inl rfl)⟩

theorem insertDesc_perm {α : Type} (key : α → ℚ) (a : α) (l : List α) :
    List.Perm (insertDesc key a l) (a :: l) := by
  induction l with
  | nil => exact List.Perm.refl _
  | cons b t ih =>
    rw [insertDesc]
    split
    · exact List.Perm.refl _
    · exact (ih.cons b).trans (List.Perm.swap a b t)

theorem sortDesc_perm {α : Type} (key : α → ℚ) (l : List α) :
    List.Perm (sortDesc key l) l := by
  induction l with
  | nil => exact List.Perm.refl _
  | cons a t ih =>
    show List.Perm (insertDesc key a (sortDesc key t)) (a :: t)
    exact (insertDesc_perm key a _).trans (ih.cons a)

theorem insertDesc_sorted {α : Type} (key : α → ℚ) (a : α) :
    ∀ l : List α, (l.Pairwise fun x y => key y ≤ key x) →
      (insertDesc key a l).Pairwise fun x y => key y ≤ key x := by
  intro l
  induction l with
  | nil =>
    intro _
    simp [insertDesc]
  | cons b t ih =>
    intro hs
    rw [insertDesc]
    split <;> rename_i hba
    · refine List.Pairwise.cons ?_ hs
      intro y hy
      rcases List.mem_cons.mp hy with rfl | hyt
      · exact hba
      · exact le_trans ((List.pairwise_cons.mp hs).1 y hyt) hba
    · rcases List.pairwise_cons.mp hs with ⟨hbt, hst⟩
      refine List.Pairwise.cons ?_ (ih hst)
      intro y hy
      have hy' : y ∈ a :: t := (insertDesc_perm key a t).mem_iff.mp hy
      rcases List.mem_cons.mp hy' with rfl | hyt
      · exact le_of_lt (not_le.mp hba)
      · exact hbt y hyt

theorem sortDesc_sorted {α : Type} (key : α → ℚ) (l : List α) :
    (sortDesc key l).Pairwise fun x y => key y ≤ key x := by
  induction l with
  | nil => simp [sortDesc]
  | cons a t ih =>
    show (insertDesc key a (sortDesc key t)).Pairwise _
    exact insertDesc_sorted key a _ ih

theorem insertDesc_filter_key {α : Type} (key : α → ℚ) (q : ℚ) (a : α) :
    ∀ l : List α, (insertDesc key a l).filter (fun x => decide (key x = q)) =
      (a :: l).filter fun x => decide (key x = q) := by
  intro l
  induction l with
  | nil => rfl
  | cons b t ih =>
    rw [insertDesc]
    split <;> rename_i hba
    · rfl
    · by_cases h2 : key a = q
      · by_cases h1 : key b = q
        · exact absurd (le_of_eq (h1.trans h2.symm)) hba
        · simp [List.filter_cons, ih, h1, h2]
      · by_cases h1 : key b = q
        · simp [List.filter_cons, ih, h1, h2]
        · simp [List.filter_cons, ih, h1, h2]

theorem sortDesc_filter_key {α : Type} (key : α → ℚ) (q : ℚ) :
    ∀ l : List α, (sortDesc key l).filter (fun x => decide (key x = q)) =
      l.filter fun x => decide (key x = q) := by
  intro l
  induction l with
  | nil => rfl
  | cons a t ih =>
    show (insertDesc key a (sortDesc key t)).filter _ = _
    rw [insertDesc_filter_key, List.filter_cons, List.filter_cons, ih]

/-- Claim C7 (amended): on a view all of whose measure cells are numeric
(always the case in app.py's pipeline, which drops records with missing
measures), nlargest returns exactly min(n, |view|) records, pairwise sorted
descending by the measure, and for every measure value the selected records
keep the view's original relative order (stable selection). -/
theorem c7_topn_spec (F : Table) (n : Nat) (c : String)
    (h : ∀ r ∈ F.rows, (F.cellAt r c).isNum = true) :
    (F.nlargest n c).rows.length = min n F.rows.length ∧
    (F.nlargest n c).rows.Pairwise (fun a b => F.keyAt c b ≤ F.keyAt c a) ∧
    ∀ q : ℚ, ((F.nlargest n c).rows.filter fun r => decide (F.keyAt c r = q)).Sublist
      (F.rows.filter fun r => decide (F.keyAt c r = q)) := by
  have hfil : F.rows.filter (fun r => (F.cellAt r c).isNum) = F.rows :=
    List.filter_eq_self.mpr h
  have hrows : (F.nlargest n c).rows = (sortDesc (F.keyAt c) F.rows).take n := by
    show (sortDesc (F.keyAt c) (F.rows.filter fun r => (F.cellAt r c).isNum)).take n = _
    rw [hfil]
  refine ⟨?_, ?_, ?_⟩
  · rw [hrows, List.length_take, (sortDesc_perm (F.keyAt c) F.rows).length_eq]
  · rw [hrows]
    exact (sortDesc_sorted (F.keyAt c) F.rows).sublist (List.take_sublist n _)
  · intro q
    rw [hrows, ← sortDesc_filter_key (F.keyAt c) q F.rows]
    exact (List.take_sublist n _).filter _

/-- Witness for c7_topn_spec on a concrete all-numeric view. -/
theorem c7_witness :
    (exC7NumView.nlargest 1 "Sales Volume").rows.length = min 1 exC7NumView.rows.length ∧
    ((exC7NumView.nlargest 1 "Sales Volume").rows.filter fun r =>
        decide (exC7NumView.keyAt "Sales Volume" r = 3)).Sublist
      (exC7NumView.rows.filter fun r => decide (exC7NumView.keyAt "Sales Volume" r = 3)) :=
  ⟨(c7_topn_spec exC7NumView 1 "Sales Volume" (by decide)).1,
   (c7_topn_spec exC7NumView 1 "Sales Volume" (by decide)).2.2 3⟩

/- ------------------- parse / print round trip (claim C8) ---------------- -/

theorem digitVal?_digitChar10 {d : Nat} (hd : d < 10) : digitVal? (digitChar10 d) = some d :=
  (by decide : ∀ x : Fin 10, digitVal? (digitChar10 x.val) = some x.val) ⟨d, hd⟩

theorem isDigit_digitChar10 {d : Nat} (hd : d < 10) : (digitChar10 d).isDigit = true :=
  (by decide : ∀ x : Fin 10, (digitChar10 x.val).isDigit = true) ⟨d, hd⟩

theorem digitVal?_isSome_of_isDigit {c : Char} (h : c.isDigit = true) :
    digitVal? c = some (c.toNat - 48) := by
  unfold digitVal?
  rw [if_pos h]

theorem parseNatAux_shift : ∀ (t : List Char) (x : Nat),
    parseNatAux x t = (parseNatAux 0 t).map fun v => x * 10 ^ t.length + v := by
  intro t
  induction t with
  | nil =>
    intro x
    simp [parseNatAux]
  | cons c t ih =>
    intro x
    rw [parseNatAux, parseNatAux]
    cases hd : digitVal? c with
    | none => rfl
    | some d =>
      show parseNatAux (x * 10 + d) t = (parseNatAux (0 * 10 + d) t).map _
      rw [ih (x * 10 + d), ih (0 * 10 + d)]
      cases hp : parseNatAux 0 t with
      | none => rfl
      | some v =>
        simp only [Option.map_some', List.length_cons, Option.some.injEq]
        ring

theorem parseNatAux_app : ∀ (A B : List Char) (x : Nat),
    parseNatAux x (A ++ B) = (parseNatAux x A).bind fun a => parseNatAux a B := by
  intro A
  induction A with
  | nil => intro B x; rfl
  | cons c t ih =>
    intro B x
    rw [List.cons_append, parseNatAux, parseNatAux]
    cases hd : digitVal? c with
    | none => rfl
    | some d => exact ih B _

theorem parseNatChars_append {A : List Char} {a : Nat} (B : List Char)
    (hA : parseNatChars A = some a) :
    parseNatChars (A ++ B) = (parseNatChars B).map fun b => a * 10 ^ B.length + b := by
  unfold parseNatChars at hA ⊢
  rw [parseNatAux_app, hA]
  show parseNatAux a B = _
  exact parseNatAux_shift B a

theorem parseNatChars_zeros : ∀ k : Nat, parseNatChars (List.replicate k '0') = some 0 := by
  intro k
  induction k with
  | zero => rfl
  | succ k ih =>
    show parseNatAux 0 ('0' :: List.replicate k '0') = some 0
    rw [parseNatAux]
    exact ih

theorem parseNatChars_allDigits :
    ∀ (l : List Char), (∀ c ∈ l, c.isDigit = true) → ∃ v, parseNatChars l = some v := by
  have aux : ∀ (l : List Char), (∀ c ∈ l, c.isDigit = true) → ∀ x, ∃ v, parseNatAux x l = some v := by
    intro l
    induction l with
    | nil => intro _ x; exact ⟨x, rfl⟩
    | cons c t ih =>
      intro h x
      rw [parseNatAux, digitVal?_isSome_of_isDigit (h c (List.mem_cons_self c t))]
      exact ih (fun c hc => h c (List.mem_cons_of_mem _ hc)) _
  intro l h
  exact aux l h 0

theorem printNatAux_digits :
    ∀ (fuel n : Nat), ∀ c ∈ printNatAux fuel n, c.isDigit = true := by
  intro fuel
  induction fuel with
  | zero =>
    intro n c hc
    cases n with
    | zero =>
      rw [show printNatAux 0 0 = [] from rfl] at hc
      cases hc
    | succ m =>
      rw [show printNatAux 0 (m + 1) = [] from rfl] at hc
      cases hc
  | succ fuel ih =>
    intro n c hc
    cases n with
    | zero =>
      rw [show printNatAux (fuel + 1) 0 = [] from rfl] at hc
      cases hc
    | succ m =>
      rw [printNatAux] at hc
      rcases List.mem_cons.mp hc with rfl | hc2
      · exact isDigit_digitChar10 (Nat.mod_lt _ (by omega))
      · exact ih _ c hc2

theorem printNatChars_digits (n : Nat) : ∀ c ∈ printNatChars n, c.isDigit = true := by
  intro c hc
  unfold printNatChars at hc
  split at hc
  · rcases List.mem_singleton.mp hc with rfl
    decide
  · exact printNatAux_digits n n c (List.mem_reverse.mp hc)

theorem printNatChars_ne_nil (n : Nat) : printNatChars n ≠ [] := by
  unfold printNatChars
  split
  · exact List.cons_ne_nil _ _
  · rename_i hn
    intro h
    rw [List.reverse_eq_nil_iff] at h
    cases n with
    | zero => exact hn rfl
    | succ m =>
      rw [printNatAux] at h
      cases h

theorem parse_printNatAux :
    ∀ (fuel n : Nat), n ≤ fuel → n ≠ 0 →
      parseNatChars (printNatAux fuel n).reverse = some n := by
  intro fuel
  induction fuel with
  | zero =>
    intro n hn h0
    omega
  | succ fuel ih =>
    intro n hn h0
    cases n with
    | zero => exact absurd rfl h0
    | succ m =>
      rw [printNatAux, List.reverse_cons]
      have hq : (m + 1) / 10 ≤ fuel := by
        have h1 : (m + 1) / 10 < m + 1 := Nat.div_lt_self (by omega) (by omega)
        omega
      by_cases hq0 : (m + 1) / 10 = 0
      · have hA : printNatAux fuel ((m + 1) / 10) = [] := by
          rw [hq0]
          cases fuel <;> rfl
        rw [hA]
        show parseNatChars ([] ++ [digitChar10 ((m + 1) % 10)]) = some (m + 1)
        rw [List.nil_append]
        show parseNatAux 0 [digitChar10 ((m + 1) % 10)] = some (m + 1)
        rw [parseNatAux, digitVal?_digitChar10 (Nat.mod_lt _ (by omega))]
        show some (0 * 10 + (m + 1) % 10) = some (m + 1)
        have := Nat.div_add_mod (m + 1) 10
        simp only [Option.some.injEq]
        omega
      · have hA := ih ((m + 1) / 10) hq hq0
        rw [parseNatChars_append [digitChar10 ((m + 1) % 10)] hA]
        show (parseNatAux 0 [digitChar10 ((m + 1) % 10)]).map _ = _
        rw [parseNatAux, digitVal?_digitChar10 (Nat.mod_lt _ (by omega))]
        show some ((m + 1) / 10 * 10 ^ 1 + (0 * 10 + (m + 1) % 10)) = some (m + 1)
        have := Nat.div_add_mod (m + 1) 10
        simp only [Option.some.injEq]
        omega

theorem parse_printNatChars (n : Nat) : parseNatChars (printNatChars n) = some n := by
  unfold printNatChars
  split
  · rename_i h
    subst h
    rfl
  · rename_i h
    exact parse_printNatAux n n le_rfl h

theorem takeWhile_append_of_all {p : Char → Bool} :
    ∀ (A : List Char), (∀ a ∈ A, p a = true) → ∀ (x : Char) (B : List Char), p x = false →
      (A ++ x :: B).takeWhile p = A := by
  intro A
  induction A with
  | nil =>
    intro _ x B hx
    rw [List.nil_append, List.takeWhile_cons, hx]
    simp
  | cons a t ih =>
    intro h x B hx
    rw [List.cons_append, List.takeWhile_cons, h a (List.mem_cons_self a t)]
    simp only [if_true]
    rw [ih (fun a ha => h a (List.mem_cons_of_mem _ ha)) x B hx]

theorem dropWhile_append_of_all {p : Char → Bool} :
    ∀ (A : List Char), (∀ a ∈ A, p a = true) → ∀ (x : Char) (B : List Char), p x = false →
      (A ++ x :: B).dropWhile p = x :: B := by
  intro A
  induction A with
  | nil =>
    intro _ x B hx
    rw [List.nil_append, List.dropWhile_cons, hx]
    simp
  | cons a t ih =>
    intro h x B hx
    rw [List.cons_append, List.dropWhile_cons, h a (List.mem_cons_self a t)]
    simp only [if_true]
    exact ih (fun a ha => h a (List.mem_cons_of_mem _ ha)) x B hx

theorem span_append_of_all {p : Char → Bool} (A : List Char) (hA : ∀ a ∈ A, p a = true)
    (x : Char) (B : List Char) (hx : p x = false) :
    (A ++ x :: B).span p = (A, x :: B) := by
  rw [List.span_eq_take_drop, takeWhile_append_of_all A hA x B hx,
    dropWhile_append_of_all A hA x B hx]

theorem takeWhile_all {p : Char → Bool} :
    ∀ (l : List Char), (∀ a ∈ l, p a = true) → l.takeWhile p = l := by
  intro l
  induction l with
  | nil => intro _; rfl
  | cons a t ih =>
    intro h
    rw [List.takeWhile_cons, h a (List.mem_cons_self a t)]
    simp only [if_true]
    rw [ih fun a ha => h a (List.mem_cons_of_mem _ ha)]

theorem dropWhile_all {p : Char → Bool} :
    ∀ (l : List Char), (∀ a ∈ l, p a = true) → l.dropWhile p = [] := by
  intro l
  induction l with
  | nil => intro _; rfl
  | cons a t ih =>
    intro h
    rw [List.dropWhile_cons, h a (List.mem_cons_self a t)]
    simp only [if_true]
    exact ih fun a ha => h a (List.mem_cons_of_mem _ ha)

theorem span_all {p : Char → Bool} (l : List Char) (hl : ∀ a ∈ l, p a = true) :
    l.span p = (l, []) := by
  rw [List.span_eq_take_drop, takeWhile_all l hl, dropWhile_all l hl]

theorem isDigit_ne_dot {c : Char} (h : c.isDigit = true) :
    (decide (c ≠ '.') : Bool) = true := by
  rw [decide_eq_true_eq]
  intro he
  subst he
  cases h

theorem padNat_digits (n e : Nat) : ∀ c ∈ padNat n e, c.isDigit = true := by
  intro c hc
  rcases List.mem_append.mp hc with h | h
  · rw [List.eq_of_mem_replicate h]
    decide
  · exact printNatChars_digits n c h

theorem padNat_parse (n e : Nat) : parseNatChars (padNat n e) = some n := by
  unfold padNat parseNatChars
  rw [parseNatAux_app]
  rw [show parseNatAux 0 (List.replicate (e + 1 - (printNatChars n).length) '0') = some 0 from
    parseNatChars_zeros _]
  exact parse_printNatChars n

theorem padNat_length (n e : Nat) : e + 1 ≤ (padNat n e).length := by
  unfold padNat
  rw [List.length_append, List.length_replicate]
  have h1 : (printNatChars n).length ≠ 0 := by
    intro h
    exact printNatChars_ne_nil n (List.eq_nil_of_length_eq_zero h)
  omega

theorem parse_printDecChars (n e : Nat) :
    parseDecChars (printDecChars n e) = some ⟨(n : Int), e⟩ := by
  by_cases he : e = 0
  · subst he
    unfold printDecChars
    rw [if_pos rfl]
    unfold parseDecChars
    rw [span_all _ fun a ha => isDigit_ne_dot (printNatChars_digits n a ha)]
    show (if printNatChars n = [] then none else
      (parseNatChars (printNatChars n)).map fun v => (⟨(v : Int), 0⟩ : Decimal)) = _
    rw [if_neg (printNatChars_ne_nil n), parse_printNatChars n]
    rfl
  · unfold printDecChars
    rw [if_neg he]
    have hL := padNat_length n e
    have hBlen : ((padNat n e).drop ((padNat n e).length - e)).length = e := by
      rw [List.length_drop]
      omega
    have hAlen : ((padNat n e).take ((padNat n e).length - e)).length =
        (padNat n e).length - e := by
      rw [List.length_take]
      omega
    have hAne : (padNat n e).take ((padNat n e).length - e) ≠ [] := by
      intro h
      have h2 := congrArg List.length h
      rw [hAlen] at h2
      simp only [List.length_nil] at h2
      omega
    have hAdig : ∀ a ∈ (padNat n e).take ((padNat n e).length - e), a.isDigit = true :=
      fun a ha => padNat_digits n e a (List.take_subset _ _ ha)
    have hBdig : ∀ a ∈ (padNat n e).drop ((padNat n e).length - e), a.isDigit = true :=
      fun a ha => padNat_digits n e a (List.drop_subset _ _ ha)
    rcases parseNatChars_allDigits _ hAdig with ⟨a, hpa⟩
    rcases parseNatChars_allDigits _ hBdig with ⟨b, hpb⟩
    have hval : n = a * 10 ^ e + b := by
      have h1 : parseNatChars ((padNat n e).take ((padNat n e).length - e) ++
          (padNat n e).drop ((padNat n e).length - e)) = some n := by
        rw [List.take_append_drop]
        exact padNat_parse n e
      rw [parseNatChars_append _ hpa, hpb, hBlen] at h1
      simp only [Option.map_some', Option.some.injEq] at h1
      omega
    unfold parseDecChars
    rw [span_append_of_all _ (fun a ha => isDigit_ne_dot (hAdig a ha)) '.' _ (by decide)]
    show (if _ ∧ _ then none else _) = _
    rw [if_neg (by intro hand; exact hAne hand.1)]
    show (match parseNatChars ((padNat n e).take ((padNat n e).length - e)),
        parseNatChars ((padNat n e).drop ((padNat n e).length - e)) with
      | some a, some b =>
        some (⟨a * 10 ^ ((padNat n e).drop ((padNat n e).length - e)).length + b,
          ((padNat n e).drop ((padNat n e).length - e)).length⟩ : Decimal)
      | _, _ => none) = _
    rw [hpa, hpb]
    show some (⟨_, _⟩ : Decimal) = _
    rw [hBlen]
    have hm : ((a : Int) * 10 ^ e + (b : Int)) = ((n : Int)) := by
      have : ((a * 10 ^ e + b : Nat) : Int) = (n : Int) := by
        exact_mod_cast congrArg (Nat.cast : Nat → Int) hval.symm
      push_cast at this
      omega
    simp only [Option.some.injEq, Decimal.mk.injEq]
    refine ⟨?_, trivial⟩
    omega

theorem printDecChars_chars (n e : Nat) :
    ∀ c ∈ printDecChars n e, c.isDigit = true ∨ c = '.' := by
  intro c hc
  unfold printDecChars at hc
  split at hc
  · exact Or.inl (printNatChars_digits n c hc)
  · rcases List.mem_append.mp hc with h | h
    · exact Or.inl (padNat_digits n e c (List.take_subset _ _ h))
    · rcases List.mem_cons.mp h with rfl | h2
      · exact Or.inr rfl
      · exact Or.inl (padNat_digits n e c (List.drop_subset _ _ h2))

theorem printDecChars_ne_nil (n e : Nat) : printDecChars n e ≠ [] := by
  unfold printDecChars
  split
  · exact printNatChars_ne_nil n
  · intro h
    rcases List.append_eq_nil.mp h with ⟨_, h2⟩
    cases h2

theorem parseSigned_printDec (n e : Nat) :
    parseSigned (printDecChars n e) = some ⟨(n : Int), e⟩ := by
  cases hl : printDecChars n e with
  | nil => exact absurd hl (printDecChars_ne_nil n e)
  | cons c t =>
    have hc : c.isDigit = true ∨ c = '.' :=
      printDecChars_chars n e c (hl ▸ List.mem_cons_self c t)
    have hcne : ¬(c = '-') := by
      rcases hc with h | h
      · intro he
        rw [he] at h
        cases h
      · intro he
        exact absurd (h ▸ he) (by decide)
    rw [parseSigned, if_neg hcne, ← hl]
    exact parse_printDecChars n e

theorem parseSigned_print (d : Decimal) : parseSigned d.print = some d := by
  obtain ⟨m, e⟩ := d
  unfold Decimal.print
  by_cases hm : m < 0
  · rw [if_pos hm, parseSigned, if_pos rfl, parse_printDecChars]
    simp only [Option.map_some', Option.some.injEq, Decimal.mk.injEq]
    exact ⟨by omega, by trivial⟩
  · rw [if_neg hm, parseSigned_printDec]
    simp only [Option.some.injEq, Decimal.mk.injEq]
    exact ⟨by omega, by trivial⟩

theorem parseNumStr_print (d : Decimal) : parseNumStr ⟨d.print⟩ = some d :=
  parseSigned_print d

set_option maxRecDepth 4000 in
theorem naStrings_parse_none : ∀ s ∈ naStrings, parseNumStr s = none := by decide

theorem readCell_print (d : Decimal) : readCell ⟨d.print⟩ = .num d := by
  unfold readCell
  split
  · rename_i hna
    exfalso
    have hmem : (⟨d.print⟩ : String) ∈ naStrings := by simpa using hna
    have h1 := naStrings_parse_none _ hmem
    rw [parseNumStr_print] at h1
    cases h1
  · rw [parseNumStr_print]

theorem readCell_str_eq {t s : String} (h : readCell t = .str s) : s = t := by
  unfold readCell at h
  split at h
  · cases h
  · split at h
    · cases h
    · exact (Cell.str.inj h).symm

theorem readCell_stable_str {t s : String} (h : readCell t = .str s) :
    readCell s = .str s := by
  have he := readCell_str_eq h
  subst he
  exact h

theorem readCell_printCell_num {c : Cell} (h : c.isNum = true) :
    readCell (printCell c) = c := by
  rcases isNum_iff.mp h with ⟨d, rfl⟩
  exact readCell_print d

theorem readCell_printCell_readCell (t : String) :
    readCell (printCell (readCell t)) = readCell t := by
  cases h : readCell t with
  | na => decide
  | str s => exact readCell_stable_str h
  | num d => exact readCell_print d

set_option maxRecDepth 2000 in
theorem catStable_unknown : CatStable "Unknown" := by
  unfold CatStable
  decide

theorem catStable_astype_readCell (t : String) :
    ∃ s, astypeFillCell (readCell t) = .str s ∧ CatStable s := by
  cases h : readCell t with
  | na => exact ⟨"Unknown", rfl, catStable_unknown⟩
  | str s =>
    refine ⟨s, rfl, ?_⟩
    unfold CatStable
    rw [readCell_stable_str h]
    rfl
  | num d =>
    refine ⟨⟨d.print⟩, rfl, ?_⟩
    unfold CatStable
    rw [readCell_print d]
    rfl

theorem getD_map_na : ∀ (l : List String) (i : Nat),
    (l.map readCell).getD i Cell.na = Cell.na ∨
      ∃ t, (l.map readCell).getD i Cell.na = readCell t := by
  intro l i
  rw [List.getD_eq_getElem?_getD, List.getElem?_map]
  cases h : l[i]? with
  | none => exact Or.inl rfl
  | some t => exact Or.inr ⟨t, rfl⟩

theorem cellAt_loadRows_shape {F : Table} {r : Row}
    (hr : ∃ orig : List String, orig.map readCell = r) (n : String) :
    F.cellAt r n = Cell.na ∨ ∃ t, F.cellAt r n = readCell t := by
  rcases hr with ⟨orig, rfl⟩
  unfold Table.cellAt
  cases F.colIdx n with
  | none => exact Or.inl rfl
  | some i => exact getD_map_na orig i

theorem dropWhile_rdropWhile_dropWhile (p : Char → Bool) (l : List Char) :
    (List.rdropWhile p (l.dropWhile p)).dropWhile p = List.rdropWhile p (l.dropWhile p) := by
  rw [List.dropWhile_eq_self_iff]
  intro hl
  rcases List.rdropWhile_prefix p (l.dropWhile p) with ⟨t, ht⟩
  have hA0 : 0 < (l.dropWhile p).length := by
    rw [← ht, List.length_append]
    omega
  have hsame : (l.dropWhile p).head? = (List.rdropWhile p (l.dropWhile p)).head? := by
    cases hB : List.rdropWhile p (l.dropWhile p) with
    | nil =>
      have h0 := hl
      rw [hB] at h0
      simp at h0
    | cons b B2 =>
      rw [hB] at ht
      rw [← ht]
      rfl
  have hhd : (List.rdropWhile p (l.dropWhile p)).head? =
      some ((List.rdropWhile p (l.dropWhile p)).get ⟨0, hl⟩) := by
    rw [List.head?_eq_getElem?, List.getElem?_eq_getElem hl]
    rfl
  have hAhd : (l.dropWhile p).head? = some ((l.dropWhile p).get ⟨0, hA0⟩) := by
    rw [List.head?_eq_getElem?, List.getElem?_eq_getElem hA0]
    rfl
  have hnp : ¬ p ((l.dropWhile p).get ⟨0, hA0⟩) = true := by
    have hA := List.dropWhile_idempotent p l
    rw [List.dropWhile_eq_self_iff] at hA
    exact hA hA0
  rw [hAhd, hhd] at hsame
  rw [← Option.some.inj hsame]
  exact hnp

theorem stripName_idem (s : String) : stripName (stripName s) = stripName s := by
  show (⟨List.rdropWhile (fun c => c.isWhitespace)
      ((List.rdropWhile (fun c => c.isWhitespace)
        (s.data.dropWhile (fun c => c.isWhitespace))).dropWhile (fun c => c.isWhitespace))⟩ :
      String) =
    ⟨List.rdropWhile (fun c => c.isWhitespace) (s.data.dropWhile (fun c => c.isWhitespace))⟩
  rw [dropWhile_rdropWhile_dropWhile, List.rdropWhile_idempotent]

theorem foldl_renameStep_cases : ∀ (ps : List (String × String)) (t : String),
    ps.foldl renameStep t = t ∨ ps.foldl renameStep t ∈ ps.map Prod.snd := by
  intro ps
  induction ps with
  | nil => intro t; exact Or.inl rfl
  | cons p ps ih =>
    intro t
    rw [List.foldl_cons, List.map_cons]
    rcases ih (renameStep t p) with h | h
    · rw [h]
      unfold renameStep
      split
      · exact Or.inr (List.mem_cons_self _ _)
      · exact Or.inl rfl
    · exact Or.inr (List.mem_cons_of_mem _ h)

set_option maxRecDepth 8000 in
theorem renameTargets_fixed : ∀ v ∈ colMap.map Prod.snd, normName v = v := by decide

theorem normName_idem (s : String) : normName (normName s) = normName s := by
  rcases foldl_renameStep_cases colMap (stripName s) with h | h
  · show renameName (stripName (renameName (stripName s))) = renameName (stripName s)
    rw [show renameName (stripName s) = stripName s from h, stripName_idem]
    exact h
  · exact renameTargets_fixed _ h

set_option maxRecDepth 8000 in
theorem specialCols_fixed : ∀ c ∈ specialCols, normName c = c := by decide

theorem set_getD_self : ∀ (l : List Cell) (i : Nat) (d : Cell),
    l.set i (l.getD i d) = l := by
  intro l
  induction l with
  | nil => intro i d; rfl
  | cons a t ih =>
    intro i d
    cases i with
    | zero => rfl
    | succ j =>
      show a :: t.set j (t.getD j d) = a :: t
      rw [ih j d]

theorem cellAt_eq_getD {F : Table} {r : Row} {n : String} {i : Nat}
    (h : F.colIdx n = some i) : F.cellAt r n = r.getD i Cell.na := by
  unfold Table.cellAt
  rw [h]

theorem setColWith_id {F : Table} {n : String} {f : Row → Cell} (hc : F.hasCol n = true)
    (hf : ∀ r ∈ F.rows, f r = F.cellAt r n) : F.setColWith n f = F := by
  obtain ⟨i, hi⟩ : ∃ i, F.colIdx n = some i := Option.isSome_iff_exists.mp hc
  have htr : ∀ r ∈ F.rows, F.trCol n f r = r := by
    intro r hr
    unfold Table.trCol
    rw [hi, hf r hr, cellAt_eq_getD hi]
    exact set_getD_self r i Cell.na
  have hrows : F.rows.map (F.trCol n f) = F.rows := by
    calc F.rows.map (F.trCol n f) = F.rows.map id := List.map_congr_left htr
    _ = F.rows := List.map_id _
  show (⟨if F.hasCol n then F.header else F.header ++ [n], F.rows.map (F.trCol n f)⟩ :
    Table) = F
  rw [if_pos hc, hrows]

theorem tableExt {F1 F2 : Table} (h1 : F1.header = F2.header) (h2 : F1.rows = F2.rows) :
    F1 = F2 := by
  cases F1
  cases F2
  cases h1
  cases h2
  rfl

theorem idxOf?_get_nodup : ∀ {H : List String}, H.Nodup → ∀ {i : Nat} (hi : i < H.length),
    idxOf? (H.get ⟨i, hi⟩) H = some i := by
  intro H
  induction H with
  | nil =>
    intro _ i hi
    simp at hi
  | cons a t ih =>
    intro hnd i hi
    cases i with
    | zero =>
      show idxOf? a (a :: t) = some 0
      rw [idxOf?, if_pos rfl]
    | succ j =>
      have hj : j < t.length := by simpa using hi
      show idxOf? (t.get ⟨j, hj⟩) (a :: t) = some (j + 1)
      rw [idxOf?]
      have hne : ¬(a = t.get ⟨j, hj⟩) := by
        intro he
        exact (List.nodup_cons.mp hnd).1 (he ▸ List.get_mem t j hj)
      rw [if_neg hne, ih (List.nodup_cons.mp hnd).2 hj]
      rfl

theorem row_eq_of_getD {r1 r2 : Row} {L : Nat} (h1 : r1.length = L) (h2 : r2.length = L)
    (hc : ∀ i, i < L → r1.getD i Cell.na = r2.getD i Cell.na) : r1 = r2 := by
  apply List.ext_getElem (by omega)
  intro i hi1 hi2
  have h := hc i (by omega)
  rw [List.getD_eq_getElem?_getD, List.getD_eq_getElem?_getD,
    List.getElem?_eq_getElem hi1, List.getElem?_eq_getElem hi2] at h
  simpa using h

theorem length_loadRow (len : Nat) (r : Row) : (loadRow len r).length = len := by
  unfold loadRow
  rw [List.length_map, List.length_range]

theorem getD_loadRow {len i : Nat} (r : Row) (hi : i < len) :
    (loadRow len r).getD i Cell.na = readCell (printCell (r.getD i Cell.na)) := by
  unfold loadRow
  rw [List.getD_eq_getElem?_getD, List.getElem?_map, List.getElem?_range hi]
  rfl

theorem load_export_eq (G : Table) : loadCsv (Table.exportCsv G) = reloadTable G := by
  refine tableExt rfl ?_
  show ((G.rows.map fun r => (List.range G.header.length).map fun i =>
      printCell (r.getD i Cell.na)).map fun r => r.map readCell) =
    G.rows.map (loadRow G.header.length)
  rw [List.map_map]
  refine List.map_congr_left ?_
  intro r _
  show ((List.range G.header.length).map fun i =>
      printCell (r.getD i Cell.na)).map readCell = loadRow G.header.length r
  rw [List.map_map]
  rfl

theorem aligned_reload (G : Table) : (reloadTable G).Aligned := by
  intro r hr
  rcases List.mem_map.mp hr with ⟨r0, _, rfl⟩
  exact length_loadRow _ _

theorem cellAt_reload {G : Table} {n : String} {i : Nat}
    (h : G.colIdx n = some i) (r : Row) :
    (reloadTable G).cellAt (loadRow G.header.length r) n =
      readCell (printCell (G.cellAt r n)) := by
  have hlt : i < G.header.length := idxOf?_lt h
  have h2 : (reloadTable G).colIdx n = some i := h
  rw [cellAt_eq_getD h2, cellAt_eq_getD h, getD_loadRow r hlt]

theorem normHeader_eq_self {F : Table} (h : ∀ c ∈ F.header, normName c = c) :
    normHeader F = F := by
  unfold normHeader
  have hmap : F.header.map normName = F.header := by
    calc F.header.map normName = F.header.map id := List.map_congr_left h
    _ = F.header := List.map_id _
  rw [hmap]

theorem header_foldl_fillCat :
    ∀ (cs : List String) (F : Table), (∀ c ∈ cs, F.hasCol c = true) →
      (cs.foldl fillCat F).header = F.header := by
  intro cs
  induction cs with
  | nil =>
    intro F _
    rfl
  | cons c cs ih =>
    intro F h
    have hc := h c (List.mem_cons_self c cs)
    have hh : (fillCat F c).header = F.header := by
      unfold fillCat
      rw [if_pos hc]
      exact header_setColWith_of_hasCol hc _
    have h2 : ∀ c2 ∈ cs, (fillCat F c).hasCol c2 = true := by
      intro c2 hc2
      unfold Table.hasCol Table.colIdx
      rw [hh]
      exact h c2 (List.mem_cons_of_mem _ hc2)
    rw [List.foldl_cons, ih (fillCat F c) h2, hh]

theorem reload_clean {G : Table} (hG : RoundReady G) :
    cleanApp (loadCsv (Table.exportCsv G)) = .ok G := by
  obtain ⟨ip, hip⟩ : ∃ i, G.colIdx "price" = some i :=
    Option.isSome_iff_exists.mp hG.hasPrice
  obtain ⟨iv, hiv⟩ : ∃ i, G.colIdx "Sales Volume" = some i :=
    Option.isSome_iff_exists.mp hG.hasVol
  obtain ⟨ir, hir⟩ : ∃ i, G.colIdx "Revenue" = some i :=
    Option.isSome_iff_exists.mp hG.hasRev
  have hvolR : (reloadTable G).hasCol "Sales Volume" = true := hG.hasVol
  have hrevnum : ∀ r0 ∈ G.rows, (G.cellAt r0 "Revenue").isNum = true := by
    intro r0 hr0
    rw [hG.revEq r0 hr0]
    rcases isNum_iff.mp (hG.priceNum r0 hr0) with ⟨d1, h1⟩
    rcases isNum_iff.mp (hG.volNum r0 hr0) with ⟨d2, h2⟩
    rw [h1, h2]
    rfl
  have hnorm : normHeader (reloadTable G) = reloadTable G :=
    normHeader_eq_self hG.headerFixed
  have hprice : cleanPrice (reloadTable G) = reloadTable G := by
    unfold cleanPrice
    refine setColWith_id hG.hasPrice ?_
    intro r hr
    rcases List.mem_map.mp hr with ⟨r0, hr0, rfl⟩
    rw [cellAt_reload hip r0, readCell_printCell_num (hG.priceNum r0 hr0)]
    rcases isNum_iff.mp (hG.priceNum r0 hr0) with ⟨d, hd⟩
    rw [hd]
    rfl
  have hvol : cleanVol (reloadTable G) = reloadTable G := by
    unfold cleanVol
    rw [if_pos hvolR]
    refine setColWith_id hG.hasVol ?_
    intro r hr
    rcases List.mem_map.mp hr with ⟨r0, hr0, rfl⟩
    rw [cellAt_reload hiv r0, readCell_printCell_num (hG.volNum r0 hr0)]
    rcases isNum_iff.mp (hG.volNum r0 hr0) with ⟨d, hd⟩
    rw [hd]
    rfl
  have hdrop : dropNaPriceVol (reloadTable G) = reloadTable G := by
    unfold dropNaPriceVol
    refine tableExt rfl ?_
    show (reloadTable G).rows.filter (fun r => !((reloadTable G).cellAt r "price").isNa &&
      !((reloadTable G).cellAt r "Sales Volume").isNa) = (reloadTable G).rows
    refine List.filter_eq_self.mpr ?_
    intro r hr
    rcases List.mem_map.mp hr with ⟨r0, hr0, rfl⟩
    rw [cellAt_reload hip r0, cellAt_reload hiv r0,
      readCell_printCell_num (hG.priceNum r0 hr0), readCell_printCell_num (hG.volNum r0 hr0)]
    rcases isNum_iff.mp (hG.priceNum r0 hr0) with ⟨d1, h1⟩
    rcases isNum_iff.mp (hG.volNum r0 hr0) with ⟨d2, h2⟩
    rw [h1, h2]
    rfl
  have hrev : addRevenue (reloadTable G) = reloadTable G := by
    unfold addRevenue
    refine setColWith_id hG.hasRev ?_
    intro r hr
    rcases List.mem_map.mp hr with ⟨r0, hr0, rfl⟩
    rw [cellAt_reload hip r0, cellAt_reload hiv r0, cellAt_reload hir r0,
      readCell_printCell_num (hG.priceNum r0 hr0), readCell_printCell_num (hG.volNum r0 hr0),
      readCell_printCell_num (hrevnum r0 hr0)]
    exact (hG.revEq r0 hr0).symm
  have hfold : catCols.foldl fillCat (reloadTable G) = G := by
    rcases foldl_fillCat_spec catCols (reloadTable G) (by decide) (aligned_reload G) with
      ⟨tr, hrows, hprops⟩
    have hcatsR : ∀ c ∈ catCols, (reloadTable G).hasCol c = true := hG.hasCats
    have hhead : (catCols.foldl fillCat (reloadTable G)).header = (reloadTable G).header :=
      header_foldl_fillCat catCols (reloadTable G) hcatsR
    have hcell : ∀ r0 ∈ G.rows, ∀ (n : String) (i : Nat), G.colIdx n = some i →
        (catCols.foldl fillCat (reloadTable G)).cellAt (tr (loadRow G.header.length r0)) n =
          G.cellAt r0 n := by
      intro r0 hr0 n i hni
      have hmem2 : loadRow G.header.length r0 ∈ (reloadTable G).rows :=
        List.mem_map_of_mem _ hr0
      rcases hprops (loadRow G.header.length r0) hmem2 with ⟨hfill, hpres⟩
      by_cases hcat : n ∈ catCols
      · rw [hfill n hcat, if_pos (hcatsR n hcat), cellAt_reload hni r0]
        rcases hG.catReady n hcat r0 hr0 with ⟨s, hs, hstable⟩
        rw [hs]
        exact hstable
      · rw [hpres n hcat, cellAt_reload hni r0]
        by_cases hp : n = "price"
        · subst hp
          exact readCell_printCell_num (hG.priceNum r0 hr0)
        by_cases hv : n = "Sales Volume"
        · subst hv
          exact readCell_printCell_num (hG.volNum r0 hr0)
        by_cases hrv : n = "Revenue"
        · subst hrv
          exact readCell_printCell_num (hrevnum r0 hr0)
        have hns : n ∉ specialCols := by
          intro hmem
          simp only [specialCols, List.mem_cons] at hmem
          rcases hmem with h | h | h | h
          · exact hp h
          · exact hv h
          · exact hrv h
          · exact hcat h
        have hlt : i < G.header.length := idxOf?_lt hni
        have hget : G.header.get ⟨i, hlt⟩ = n := by
          have h2 := (idxOf?_spec hni).2
          rw [List.getElem?_eq_getElem hlt] at h2
          exact Option.some.inj h2
        have hpass := hG.passReady r0 hr0 i hlt (by rw [hget]; exact hns)
        rw [cellAt_eq_getD hni]
        exact hpass
    have hid : ∀ r0 ∈ G.rows, tr (loadRow G.header.length r0) = r0 := by
      intro r0 hr0
      have hmemF : tr (loadRow G.header.length r0) ∈
          (catCols.foldl fillCat (reloadTable G)).rows := by
        rw [hrows]
        exact List.mem_map_of_mem tr (List.mem_map_of_mem _ hr0)
      have hlen1 : (tr (loadRow G.header.length r0)).length = G.header.length := by
        have h2 := aligned_foldl_fillCat catCols (reloadTable G) (aligned_reload G) _ hmemF
        rw [hhead] at h2
        exact h2
      refine row_eq_of_getD hlen1 (hG.aligned r0 hr0) ?_
      intro i hi
      have hidx : idxOf? (G.header.get ⟨i, hi⟩) G.header = some i :=
        idxOf?_get_nodup hG.nodup hi
      have hidxF : (catCols.foldl fillCat (reloadTable G)).colIdx (G.header.get ⟨i, hi⟩) =
          some i := by
        unfold Table.colIdx
        rw [hhead]
        exact hidx
      rw [← cellAt_eq_getD hidxF, ← cellAt_eq_getD (show G.colIdx (G.header.get ⟨i, hi⟩) =
        some i from hidx)]
      exact hcell r0 hr0 _ i hidx
    refine tableExt ?_ ?_
    · rw [hhead]
      rfl
    · rw [hrows]
      show (G.rows.map (loadRow G.header.length)).map tr = G.rows
      rw [List.map_map]
      calc G.rows.map (tr ∘ loadRow G.header.length) = G.rows.map id :=
        List.map_congr_left (fun r0 hr0 => hid r0 hr0)
      _ = G.rows := List.map_id _
  have hnorm2 : normHeader (loadCsv (Table.exportCsv G)) = reloadTable G := by
    rw [load_export_eq G, hnorm]
  have hpidx : (normHeader (loadCsv (Table.exportCsv G))).colIdx "price" = some ip := by
    rw [hnorm2]
    exact hip
  have hsf0 : salesFallback (cleanPrice (normHeader (loadCsv (Table.exportCsv G)))) =
      .ok (cleanPrice (normHeader (loadCsv (Table.exportCsv G)))) := by
    rw [hnorm2, hprice]
    exact salesFallback_ok_of_hasVol hvolR
  rw [cleanApp_eq_of_some hpidx hsf0, hnorm2, hprice, hvol, hdrop, hrev, hfold]
  unfold nameDefault
  rw [if_pos (hG.hasCats "name" (by decide))]

theorem roundReady_of_clean {T : Csv} {F2 : Table}
    (hA : (loadCsv T).Aligned) (hN : (normHeader (loadCsv T)).header.Nodup)
    (hC : cleanApp (loadCsv T) = .ok F2) : RoundReady F2 := by
  have hs := cleanApp_spec hA hC
  rcases hs.headerExt with ⟨extra, hhead, hndE, hextra⟩
  have hnodup : F2.header.Nodup := by
    rw [hhead]
    exact List.nodup_append.mpr ⟨hN, hndE, fun a ha1 ha2 => (hextra a ha2).2 ha1⟩
  have hfix : ∀ h ∈ F2.header, normName h = h := by
    intro h hmem
    rw [hhead] at hmem
    rcases List.mem_append.mp hmem with hm | hm
    · rcases List.mem_map.mp (show h ∈ (loadCsv T).header.map normName from hm) with
        ⟨h0, _, rfl⟩
      exact normName_idem h0
    · exact specialCols_fixed h (hextra h hm).1
  have hshape : ∀ r ∈ (normHeader (loadCsv T)).rows, ∃ orig : List String,
      orig.map readCell = r := by
    intro r hr
    rcases List.mem_map.mp (show r ∈ T.rows.map (fun row => row.map readCell) from hr) with
      ⟨orig, _, ho⟩
    exact ⟨orig, ho⟩
  refine ⟨hs.aligned, hnodup, hfix, hs.hasPrice, hs.hasVol, hs.hasRev, hs.hasCats,
    ?_, ?_, ?_, ?_, ?_⟩
  · intro r hr
    rcases hs.rowSpec r hr with ⟨r0, _, _, hpnum, _, _, _, _⟩
    exact hpnum
  · intro r hr
    rcases hs.rowSpec r hr with ⟨r0, _, _, _, hvnum, _, _, _⟩
    exact hvnum
  · intro r hr
    rcases hs.rowSpec r hr with ⟨r0, _, _, _, _, hrev, _, _⟩
    exact hrev
  · intro c hc r hr
    rcases hs.rowSpec r hr with ⟨r0, hr0, _, _, _, _, hcat, _⟩
    have hceq := hcat c hc
    by_cases hbc : (normHeader (loadCsv T)).hasCol c = true
    · rw [if_pos hbc] at hceq
      rcases cellAt_loadRows_shape (hshape r0 hr0) c with hna | ⟨t, ht⟩
      · rw [hna] at hceq
        exact ⟨"Unknown", hceq, catStable_unknown⟩
      · rw [ht] at hceq
        rcases catStable_astype_readCell t with ⟨s, hseq, hstable⟩
        rw [hseq] at hceq
        exact ⟨s, hceq, hstable⟩
    · rw [if_neg hbc] at hceq
      exact ⟨"Unknown", hceq, catStable_unknown⟩
  · intro r hr i hi hns
    rcases hs.rowSpec r hr with ⟨r0, hr0, _, _, _, _, _, hother⟩
    have hidx : idxOf? (F2.header.get ⟨i, hi⟩) F2.header = some i :=
      idxOf?_get_nodup hnodup hi
    have hcell := hother _ hns
    rw [cellAt_eq_getD hidx] at hcell
    rw [hcell]
    rcases cellAt_loadRows_shape (hshape r0 hr0) (F2.header.get ⟨i, hi⟩) with hna | ⟨t, ht⟩
    · rw [hna]
      decide
    · rw [ht]
      exact readCell_printCell_readCell t

theorem roundReady_filter {G : Table} (hG : RoundReady G) (s : FilterSpec) :
    RoundReady (applyFilters G s) := by
  have hmem : ∀ r ∈ (applyFilters G s).rows, r ∈ G.rows := by
    intro r hr
    exact (List.mem_filter.mp hr).1
  refine ⟨?_, hG.nodup, hG.headerFixed, hG.hasPrice, hG.hasVol, hG.hasRev, hG.hasCats,
    ?_, ?_, ?_, ?_, ?_⟩
  · intro r hr
    exact hG.aligned r (hmem r hr)
  · intro r hr
    exact hG.priceNum r (hmem r hr)
  · intro r hr
    exact hG.volNum r (hmem r hr)
  · intro r hr
    exact hG.revEq r (hmem r hr)
  · intro c hc r hr
    exact hG.catReady c hc r (hmem r hr)
  · intro r hr i hi hns
    exact hG.passReady r (hmem r hr) i hi hns

/-- Claim C8: for every FilteredView of app.py's cleaned Dataset, re-ingesting
the text produced by its csv export through the csv loader and the Schema
Normalizer (the cleaning of app.py lines 42-97) reproduces the records
exactly: cleanApp applied to the re-read export returns the FilteredView
itself, so every canonical-column value round-trips.  In this exact-decimal
model the spec's "modulo floating-point formatting" is absorbed into equality
of the parsed decimal values. -/
theorem c8_roundtrip (T : Csv) (F2 : Table) (s : FilterSpec)
    (hA : (loadCsv T).Aligned) (hN : (normHeader (loadCsv T)).header.Nodup)
    (hC : cleanApp (loadCsv T) = .ok F2) :
    cleanApp (loadCsv (Table.exportCsv (applyFilters F2 s))) = .ok (applyFilters F2 s) :=
  reload_clean (roundReady_filter (roundReady_of_clean hA hN hC) s)

set_option maxRecDepth 8000 in
/-- Witness for c8_roundtrip on a concrete csv. -/
theorem c8_witness :
    cleanApp (loadCsv (Table.exportCsv (applyFilters exC8Clean exC8Spec))) =
      .ok (applyFilters exC8Clean exC8Spec) :=
  c8_roundtrip exC8Csv exC8Clean exC8Spec (by decide) (by decide) (by rfl)
